import Mathlib

/-!
Verification development for the physics core of the rendering-engine
repository (src/physics/world.cpp, src/physics/shape.h).

Machine floats of the source are modelled by exact rationals; `std::sqrt`
is modelled by an explicit square-root oracle `sqrtQ : ℚ → ℚ` passed to
every definition whose source calls it, constrained where a theorem needs
it by the defining properties of the real square root on the relevant
inputs.  The math primitive headers (vec.h, mat.h) are not part of the
sources; their operations are modelled from the spec's description of the
math component (3-vectors, quaternions, 3x3 matrices, rotation from
quaternion).
-/

namespace Marlon

/-- Modelled from the spec: 3-component vector (math::Vec3f of the absent
vec.h), with exact rational components. -/
structure Vec3 where
  x : ℚ
  y : ℚ
  z : ℚ
deriving DecidableEq, Repr

namespace Vec3

def zero : Vec3 := ⟨0, 0, 0⟩

instance : Add Vec3 := ⟨fun a b => ⟨a.x + b.x, a.y + b.y, a.z + b.z⟩⟩

instance : Sub Vec3 := ⟨fun a b => ⟨a.x - b.x, a.y - b.y, a.z - b.z⟩⟩

instance : Neg Vec3 := ⟨fun a => ⟨-a.x, -a.y, -a.z⟩⟩

/-- scalar * vector -/
instance : HMul ℚ Vec3 Vec3 := ⟨fun s a => ⟨s * a.x, s * a.y, s * a.z⟩⟩

/-- vector * scalar -/
instance : HMul Vec3 ℚ Vec3 := ⟨fun a s => ⟨a.x * s, a.y * s, a.z * s⟩⟩

/-- vector / scalar (rational division; division by zero is the ill-defined
case the source hits when it divides by a zero length) -/
instance : HDiv Vec3 ℚ Vec3 := ⟨fun a s => ⟨a.x / s, a.y / s, a.z / s⟩⟩

/-- Modelled from the spec: dot product. -/
def dot (a b : Vec3) : ℚ := a.x * b.x + a.y * b.y + a.z * b.z

/-- Modelled from the spec: cross product. -/
def cross (a b : Vec3) : Vec3 :=
  ⟨a.y * b.z - a.z * b.y, a.z * b.x - a.x * b.z, a.x * b.y - a.y * b.x⟩

/-- Modelled from the spec: squared length (math::length2 / length_squared). -/
def length2 (a : Vec3) : ℚ := dot a a

@[simp] theorem add_def (a b : Vec3) : a + b = ⟨a.x + b.x, a.y + b.y, a.z + b.z⟩ := rfl

@[simp] theorem sub_def (a b : Vec3) : a - b = ⟨a.x - b.x, a.y - b.y, a.z - b.z⟩ := rfl

@[simp] theorem neg_def (a : Vec3) : -a = ⟨-a.x, -a.y, -a.z⟩ := rfl

@[simp] theorem smul_def (s : ℚ) (a : Vec3) : s * a = Vec3.mk (s * a.x) (s * a.y) (s * a.z) := rfl

@[simp] theorem mul_scalar_def (a : Vec3) (s : ℚ) : a * s = Vec3.mk (a.x * s) (a.y * s) (a.z * s) := rfl

@[simp] theorem div_scalar_def (a : Vec3) (s : ℚ) : a / s = Vec3.mk (a.x / s) (a.y / s) (a.z / s) := rfl

@[simp] theorem sub_self (a : Vec3) : a - a = Vec3.zero := by
  simp [Vec3.zero]

@[simp] theorem length2_zero : length2 Vec3.zero = 0 := by
  simp [length2, dot, Vec3.zero]

end Vec3

/-! ## Particle-ball contact query (src/physics/shape.h, find_particle_contact for Ball) -/

/-- Result of a positionless particle contact query (particle.h's
Particle_contact: a contact normal and a signed separation). -/
structure Particle_contact where
  normal : Vec3
  separation : ℚ
deriving DecidableEq, Repr

/-- Embeds shape.h lines 73-89: the particle-ball contact query.
`sqrtQ` models `std::sqrt`.  Note the source computes
`displacement / distance` unconditionally, with no special case for a
zero displacement. -/
def find_particle_contact_ball (sqrtQ : ℚ → ℚ) (particle_position : Vec3)
    (particle_radius : ℚ) (ball_radius : ℚ) (ball_position : Vec3) :
    Option Particle_contact :=
  let displacement := particle_position - ball_position
  let distance2 := Vec3.length2 displacement
  let contact_distance := ball_radius + particle_radius
  let contact_distance2 := contact_distance * contact_distance
  if distance2 ≤ contact_distance2 then
    let distance := sqrtQ distance2
    let normal := displacement / distance
    some { normal := normal, separation := distance - contact_distance }
  else
    none

/-! ## Particle-particle contact geometry
(src/physics/world.cpp lines 791-822, Position_solve_task::get_contact_geometry) -/

/-- Positionless contact geometry as produced for a particle-particle pair. -/
structure Positionless_contact_geometry where
  normal : Vec3
  separation : ℚ
deriving DecidableEq, Repr

/-- Embeds world.cpp lines 791-822: particle-particle contact geometry.
Unlike the ball query, this source site uses a strict comparison and does
special-case a zero displacement, picking the +X axis as normal. -/
def get_contact_geometry_pp (sqrtQ : ℚ → ℚ) (position0 position1 : Vec3)
    (radius0 radius1 : ℚ) : Option Positionless_contact_geometry :=
  let displacement := position0 - position1
  let distance2 := Vec3.length2 displacement
  let contact_distance := radius0 + radius1
  let contact_distance2 := contact_distance * contact_distance
  if distance2 < contact_distance2 then
    if distance2 = 0 then
      some { normal := ⟨1, 0, 0⟩, separation := -contact_distance }
    else
      let distance := sqrtQ distance2
      some { normal := displacement / distance,
             separation := distance - contact_distance }
  else
    none

/-- C5 (code evaluated at the failing input): a particle of radius 1 exactly
at the center of a ball of radius 1.  Since d = 0 the query still reports a
contact (0 ≤ 4), and the source divides the zero displacement by
sqrt(0) = 0 with no special case, so the normal is the ill-defined
0/0 result (the zero vector here, NaN in machine floats) and not the +X
axis the spec prescribes; the separation |d| - (r_p + r_b) = -2 is as
specified. -/
theorem c5_ball_contact_zero_displacement_normal_is_not_x_axis
    (sqrtQ : ℚ → ℚ) (h0 : sqrtQ 0 = 0) :
    find_particle_contact_ball sqrtQ ⟨0, 0, 0⟩ 1 1 ⟨0, 0, 0⟩ =
        some { normal := Vec3.zero, separation := -2 } ∧
      (Vec3.zero : Vec3) ≠ ⟨1, 0, 0⟩ := by
  constructor
  · unfold find_particle_contact_ball
    simp only [Vec3.sub_def, sub_self]
    norm_num [Vec3.length2, Vec3.dot, h0, Vec3.zero]
  · decide

/-- Witness for the C5 theorem at the square-root oracle fixed to the
constant zero function (which satisfies sqrt 0 = 0). -/
theorem c5_ball_contact_zero_displacement_witness :
    (fun _ : ℚ => (0 : ℚ)) 0 = 0 ∧
      (find_particle_contact_ball (fun _ => 0) ⟨0, 0, 0⟩ 1 1 ⟨0, 0, 0⟩ =
          some { normal := Vec3.zero, separation := -2 } ∧
        (Vec3.zero : Vec3) ≠ ⟨1, 0, 0⟩) :=
  ⟨rfl, c5_ball_contact_zero_displacement_normal_is_not_x_axis (fun _ => 0) rfl⟩

/-- C6: two particles with positive radii at exactly the same position
produce exactly one contact (the query returns a single geometry record),
whose normal is the fixed +X axis (unit length) and whose separation
-(r0 + r1) is strictly negative. -/
theorem c6_coincident_particles_unit_normal_separating_contact
    (sqrtQ : ℚ → ℚ) (p : Vec3) (r0 r1 : ℚ) (h0 : 0 < r0) (h1 : 0 < r1) :
    get_contact_geometry_pp sqrtQ p p r0 r1 =
        some { normal := ⟨1, 0, 0⟩, separation := -(r0 + r1) } ∧
      Vec3.dot ⟨1, 0, 0⟩ ⟨1, 0, 0⟩ = 1 ∧ -(r0 + r1) < 0 := by
  refine ⟨?_, by norm_num [Vec3.dot], by linarith⟩
  have hpos : 0 < (r0 + r1) * (r0 + r1) := by positivity
  simp [get_contact_geometry_pp, Vec3.sub_self, Vec3.length2, Vec3.dot,
    Vec3.zero, hpos]

/-- Witness for C6 at radii 1 and 1 and the origin. -/
theorem c6_coincident_particles_witness :
    (0 : ℚ) < 1 ∧
      (get_contact_geometry_pp (fun _ => 0) ⟨0, 0, 0⟩ ⟨0, 0, 0⟩ 1 1 =
          some { normal := ⟨1, 0, 0⟩, separation := -(1 + 1) } ∧
        Vec3.dot ⟨1, 0, 0⟩ ⟨1, 0, 0⟩ = 1 ∧ -((1 : ℚ) + 1) < 0) :=
  ⟨by norm_num,
    c6_coincident_particles_unit_normal_separating_contact (fun _ => 0)
      ⟨0, 0, 0⟩ 1 1 (by norm_num) (by norm_num)⟩

/-! ## Velocity-solve restitution update
(src/physics/world.cpp lines 1281-1298,
Velocity_solve_task::get_restitution_velocity_update; the threshold is
Solve_state.restitution_separating_velocity_threshold, set to
2 * |gravitational_acceleration| * h at world.cpp line 1658). -/

/-- Embeds world.cpp lines 1281-1298.  `e1`, `e2` are the two endpoint
materials' restitution coefficients (get_restitution_coefficient reads
them from the material); `contact_separating_velocity` is the separating
velocity stored on the contact at position-solve time (v_n0);
`separating_velocity` is the separating velocity recomputed from the
current velocities at velocity-solve time.  Note which of the two the
threshold test reads. -/
def get_restitution_velocity_update (threshold e1 e2 : ℚ) (normal : Vec3)
    (contact_separating_velocity separating_velocity : ℚ) : Vec3 :=
  let restitution_coefficient :=
    if |separating_velocity| > threshold then (1 : ℚ) / 2 * (e1 + e2) else 0
  normal *
    (-separating_velocity +
      min (-restitution_coefficient * contact_separating_velocity) 0)

/-- The restitution update exactly as claim C2 words it: the coefficient is
forced to 0 whenever |v_n0| ≤ threshold, where v_n0 is the separating
velocity captured at position-solve time. -/
def claimed_restitution_velocity_update (threshold e1 e2 : ℚ) (normal : Vec3)
    (contact_separating_velocity separating_velocity : ℚ) : Vec3 :=
  let restitution_coefficient :=
    if |contact_separating_velocity| ≤ threshold then 0
    else (1 : ℚ) / 2 * (e1 + e2)
  normal *
    (-separating_velocity +
      min (-restitution_coefficient * contact_separating_velocity) 0)

/-- The restitution update with the claim's wording amended to match the
source: the coefficient is forced to 0 whenever |v_n| ≤ threshold, where
v_n is the separating velocity recomputed at velocity-solve time. -/
def amended_restitution_velocity_update (threshold e1 e2 : ℚ) (normal : Vec3)
    (contact_separating_velocity separating_velocity : ℚ) : Vec3 :=
  let restitution_coefficient :=
    if |separating_velocity| ≤ threshold then 0
    else (1 : ℚ) / 2 * (e1 + e2)
  normal *
    (-separating_velocity +
      min (-restitution_coefficient * contact_separating_velocity) 0)

/-- C2 counterexample: with threshold 2|g|h = 1, both restitution
coefficients 1, stored separating velocity v_n0 = 10 and current
separating velocity v_n = 1/2, the kernel suppresses restitution (because
|v_n| ≤ threshold) while the claim, which thresholds on |v_n0| = 10 > 1,
predicts a restitution term of min(-10, 0) = -10; the two updates differ. -/
theorem c2_restitution_threshold_counterexample :
    get_restitution_velocity_update 1 1 1 ⟨1, 0, 0⟩ 10 (1 / 2) ≠
      claimed_restitution_velocity_update 1 1 1 ⟨1, 0, 0⟩ 10 (1 / 2) := by
  norm_num [get_restitution_velocity_update, claimed_restitution_velocity_update,
    Vec3.mul_scalar_def, abs]

/-- C2 (amended): the restitution impulse targets a velocity change along n
of magnitude -v_n + min(-e * v_n0, 0), with v_n0 the separating velocity
captured at position-solve time and e the mean restitution coefficient,
except that e is forced to 0 whenever |v_n| ≤ 2|g|h where v_n is the
separating velocity recomputed at velocity-solve time. -/
theorem c2_restitution_update_matches_amended_claim
    (threshold e1 e2 : ℚ) (normal : Vec3) (v_n0 v_n : ℚ) :
    get_restitution_velocity_update threshold e1 e2 normal v_n0 v_n =
      amended_restitution_velocity_update threshold e1 e2 normal v_n0 v_n := by
  unfold get_restitution_velocity_update amended_restitution_velocity_update
  rcases le_or_lt |v_n| threshold with h | h
  · simp [h, not_lt_of_le h]
  · simp [h, not_le_of_lt h]

/-! ## Arena storage
(src/physics/world.cpp lines 103-271: Particle_storage, Rigid_body_storage
and Static_body_storage; the three classes' create/destroy index logic is
textually identical, so a single embedding covers each object class.  The
constructor fills _free_indices with size-1, ..., 1, 0 and create pops
from the back of that vector.) -/

/-- The index state of one fixed-capacity storage arena: its capacity, the
stack of free indices (back of the C++ vector = last list element) and the
occupancy bitmap. -/
structure Storage where
  size : ℕ
  free_indices : List ℕ
  occupancy_bits : ℕ → Bool

/-- Result of Storage.create: either the CapacityExceeded failure (the
source throws std::runtime_error "Out of space ...") or the handle index
of the freshly occupied slot together with the updated storage. -/
inductive Create_result where
  | capacity_exceeded : Create_result
  | created : ℕ → Storage → Create_result

/-- Embeds Particle_storage::create (world.cpp lines 114-123): throw when
no free index remains, otherwise pop the back of the free-index stack,
mark the slot occupied and return its handle. -/
def Storage.create (s : Storage) : Create_result :=
  match s.free_indices.getLast? with
  | none => .capacity_exceeded
  | some index =>
      .created index
        { s with
          free_indices := s.free_indices.dropLast,
          occupancy_bits := fun j => if j = index then true else s.occupancy_bits j }

/-- Embeds Particle_storage::destroy (world.cpp lines 125-128): push the
index onto the free stack and clear its occupancy bit. -/
def Storage.destroy (s : Storage) (index : ℕ) : Storage :=
  { s with
    free_indices := s.free_indices ++ [index],
    occupancy_bits := fun j => if j = index then false else s.occupancy_bits j }

/-- Embeds the storage constructor's initial state (world.cpp lines
105-112): all indices free (free_indices[i] = size - i - 1, so the back of
the stack is 0), none occupied. -/
def Storage.init (size : ℕ) : Storage :=
  { size := size,
    free_indices := (List.range size).reverse.map fun i => size - i - 1,
    occupancy_bits := fun _ => false }

/-- The storage representation invariant: a slot below capacity is
unoccupied exactly when its index sits on the free stack, and every free
index is below capacity.  It holds for Storage.init and is maintained by
create and by destroy of an occupied slot. -/
def Storage.wf (s : Storage) : Prop :=
  (∀ i, i < s.size → (s.occupancy_bits i = false ↔ i ∈ s.free_indices)) ∧
    ∀ i ∈ s.free_indices, i < s.size

/-- C8: under the storage representation invariant, create fails with
CapacityExceeded exactly when every slot below capacity is occupied, and
any successful create returns a slot that was free and is occupied
afterwards. -/
theorem c8_create_capacity_exceeded_iff_full (s : Storage) (hwf : s.wf) :
    (s.create = .capacity_exceeded ↔ ∀ i, i < s.size → s.occupancy_bits i = true) ∧
      ∀ index s', s.create = .created index s' →
        index < s.size ∧ s.occupancy_bits index = false ∧
          s'.occupancy_bits index = true := by
  obtain ⟨hocc, hbound⟩ := hwf
  constructor
  · constructor
    · intro hcap i hi
      have hempty : s.free_indices = [] := by
        cases hfi : s.free_indices.getLast? with
        | none => exact List.getLast?_eq_none_iff.mp hfi
        | some v => simp [Storage.create, hfi] at hcap
      rcases hb : s.occupancy_bits i with _ | _
      · exact absurd ((hocc i hi).mp hb) (by simp [hempty])
      · rfl
    · intro hfull
      have hempty : s.free_indices = [] := by
        rcases hfi : s.free_indices with _ | ⟨a, l⟩
        · rfl
        · have ha : a ∈ s.free_indices := by rw [hfi]; exact List.mem_cons_self a l
          have := (hocc a (hbound a ha)).mpr ha
          rw [hfull a (hbound a ha)] at this
          exact absurd this (by simp)
      simp [Storage.create, hempty]
  · intro index s' hcr
    cases hfi : s.free_indices.getLast? with
    | none => simp [Storage.create, hfi] at hcr
    | some v =>
        simp only [Storage.create, hfi] at hcr
        obtain ⟨hv, hs'⟩ := Create_result.created.inj hcr
        have hne : s.free_indices ≠ [] := by
          intro h
          rw [h] at hfi
          simp at hfi
        have hvmem : v ∈ s.free_indices := by
          rw [List.getLast?_eq_getLast s.free_indices hne, Option.some.injEq] at hfi
          rw [← hfi]
          exact List.getLast_mem hne
        have hmem : index ∈ s.free_indices := hv ▸ hvmem
        refine ⟨hbound index hmem, (hocc index (hbound index hmem)).mpr hmem, ?_⟩
        rw [← hs']
        simp [hv]

/-- C8 witness: a capacity-1 arena with its single slot free satisfies the
invariant; create does not fail and occupies slot 0. -/
theorem c8_create_witness :
    (Storage.init 1).wf ∧
      ((Storage.init 1).create = .capacity_exceeded ↔
          ∀ i, i < (Storage.init 1).size →
            (Storage.init 1).occupancy_bits i = true) ∧
        ∀ index s', (Storage.init 1).create = .created index s' →
          index < (Storage.init 1).size ∧
            (Storage.init 1).occupancy_bits index = false ∧
              s'.occupancy_bits index = true := by
  have hwf : (Storage.init 1).wf := by
    constructor
    · intro i hi
      have hi0 : i = 0 := by simpa [Storage.init, Nat.lt_one_iff] using hi
      subst hi0
      simp [Storage.init]
    · intro i hi
      have hi0 : i = 0 := by simpa [Storage.init] using hi
      subst hi0
      simp [Storage.init]
  exact ⟨hwf, c8_create_capacity_exceeded_iff_full (Storage.init 1) hwf⟩

/-- C10: handle indices are reused last-in-first-out.  Immediately after
destroy(h), the next create returns h's index again (destroy pushed it on
the back of the free stack and create pops the back), so a stale retained
handle compares equal to, and thus aliases, the new object's handle. -/
theorem c10_create_after_destroy_reuses_index (s : Storage) (index : ℕ) :
    ∃ s', (s.destroy index).create = .created index s' := by
  simp only [Storage.destroy, Storage.create, List.getLast?_concat]
  exact ⟨_, rfl⟩

/-! ## Math primitives for the position solve
(quaternions from shared/math/quat.h; 3x3 matrices modelled from the spec
since mat.h is absent from the sources). -/

/-- Quaternion with scalar part w and vector part v (math::Quatf,
shared/math/quat.h). -/
structure Quat where
  w : ℚ
  v : Vec3
deriving DecidableEq, Repr

namespace Quat

/-- Hamilton product, exactly as quat.h defines it. -/
instance : Mul Quat :=
  ⟨fun q1 q2 =>
    ⟨q1.w * q2.w - Vec3.dot q1.v q2.v,
     q1.w * q2.v + q2.w * q1.v + Vec3.cross q1.v q2.v⟩⟩

instance : Add Quat := ⟨fun q1 q2 => ⟨q1.w + q2.w, q1.v + q2.v⟩⟩

def identity : Quat := ⟨1, Vec3.zero⟩

/-- Modelled from the spec: quaternion conjugate (used by
derive_velocity's q * q_prev^*). -/
def conjugate (q : Quat) : Quat := ⟨q.w, -q.v⟩

end Quat

/-- Modelled from the spec: 3x3 matrix as three rows (math::Mat3x3f of the
absent mat.h). -/
structure Mat3 where
  row0 : Vec3
  row1 : Vec3
  row2 : Vec3
deriving DecidableEq, Repr

namespace Mat3

def zero : Mat3 := ⟨Vec3.zero, Vec3.zero, Vec3.zero⟩

def mulVec (m : Mat3) (a : Vec3) : Vec3 :=
  ⟨Vec3.dot m.row0 a, Vec3.dot m.row1 a, Vec3.dot m.row2 a⟩

def transpose (m : Mat3) : Mat3 :=
  ⟨⟨m.row0.x, m.row1.x, m.row2.x⟩,
   ⟨m.row0.y, m.row1.y, m.row2.y⟩,
   ⟨m.row0.z, m.row1.z, m.row2.z⟩⟩

def mul (a b : Mat3) : Mat3 :=
  let bt := b.transpose
  ⟨⟨Vec3.dot a.row0 bt.row0, Vec3.dot a.row0 bt.row1, Vec3.dot a.row0 bt.row2⟩,
   ⟨Vec3.dot a.row1 bt.row0, Vec3.dot a.row1 bt.row1, Vec3.dot a.row1 bt.row2⟩,
   ⟨Vec3.dot a.row2 bt.row0, Vec3.dot a.row2 bt.row1, Vec3.dot a.row2 bt.row2⟩⟩

/-- Modelled from the spec: rotation matrix of a unit quaternion
(Mat3x3f::rotation, the standard quaternion-to-matrix formula). -/
def rotation (q : Quat) : Mat3 :=
  let x := q.v.x
  let y := q.v.y
  let z := q.v.z
  let w := q.w
  ⟨⟨1 - 2 * (y * y + z * z), 2 * (x * y - z * w), 2 * (x * z + y * w)⟩,
   ⟨2 * (x * y + z * w), 1 - 2 * (x * x + z * z), 2 * (y * z - x * w)⟩,
   ⟨2 * (x * z - y * w), 2 * (y * z + x * w), 1 - 2 * (x * x + y * y)⟩⟩

end Mat3

/-- Modelled from the spec: the component of a vector perpendicular to the
unit vector n, i.e. the projection into the tangent plane (math::perp_unit
of the absent vec.h). -/
def perp_unit (a n : Vec3) : Vec3 := a - Vec3.dot a n * n

/-! ## Positional constraint solver (src/physics/world.cpp lines 569-612) -/

/-- Embeds Positional_constraint_problem (world.cpp lines 569-575), with
the two-element arrays split into numbered fields. -/
structure Positional_constraint_problem where
  direction : Vec3
  distance : ℚ
  relative_position0 : Vec3
  relative_position1 : Vec3
  inverse_mass0 : ℚ
  inverse_mass1 : ℚ
  inverse_inertia_tensor0 : Mat3
  inverse_inertia_tensor1 : Mat3
deriving DecidableEq, Repr

/-- Embeds Positional_constraint_solution (world.cpp lines 577-581). -/
structure Positional_constraint_solution where
  delta_position0 : Vec3
  delta_position1 : Vec3
  delta_orientation0 : Vec3
  delta_orientation1 : Vec3
  delta_lambda : ℚ
deriving DecidableEq, Repr

/-- Embeds solve_positional_constraint (world.cpp lines 583-612):
generalized inverse masses w_i = m_i^-1 + (r_i x n) . (I_i^-1 (r_i x n)),
delta_lambda = c / (w_1 + w_2), position deltas +-(delta_lambda n) m_i^-1
and orientation deltas I_i^-1 (r_i x (+-delta_lambda n)). -/
def solve_positional_constraint (problem : Positional_constraint_problem) :
    Positional_constraint_solution :=
  let n := problem.direction
  let c := problem.distance
  let r_1 := problem.relative_position0
  let r_2 := problem.relative_position1
  let m_inv_1 := problem.inverse_mass0
  let m_inv_2 := problem.inverse_mass1
  let I_inv_1 := problem.inverse_inertia_tensor0
  let I_inv_2 := problem.inverse_inertia_tensor1
  let r_1_cross_n := Vec3.cross r_1 n
  let r_2_cross_n := Vec3.cross r_2 n
  let w_1 := m_inv_1 + Vec3.dot r_1_cross_n (I_inv_1.mulVec r_1_cross_n)
  let w_2 := m_inv_2 + Vec3.dot r_2_cross_n (I_inv_2.mulVec r_2_cross_n)
  let delta_lambda := c / (w_1 + w_2)
  let p := delta_lambda * n
  { delta_position0 := p * m_inv_1,
    delta_position1 := (-p) * m_inv_2,
    delta_orientation0 := I_inv_1.mulVec (Vec3.cross r_1 p),
    delta_orientation1 := I_inv_2.mulVec (Vec3.cross r_2 (-p)),
    delta_lambda := delta_lambda }

/-! ## Position-solve contact kernels
(src/physics/world.cpp, Position_solve_task::solve_contact overloads). -/

/-- Output of the particle-particle contact solve: the recorded lambdas
and the position deltas the source adds to the two particles' positions. -/
structure Pp_contact_result where
  lambda_n : ℚ
  lambda_t : ℚ
  delta_position0 : Vec3
  delta_position1 : Vec3
deriving DecidableEq, Repr

/-- Embeds world.cpp lines 887-909, solve_contact for a particle-particle
pair: a purely normal positional correction with
lambda_n = -separation / (m_1^-1 + m_2^-1) and lambda_t fixed at 0; no
friction machinery exists for this pair kind. -/
def solve_contact_pp (inverse_mass0 inverse_mass1 : ℚ) (normal : Vec3)
    (separation : ℚ) : Pp_contact_result :=
  let distance_per_impulse := inverse_mass0 + inverse_mass1
  let impulse_per_distance := 1 / distance_per_impulse
  let lambda_n := -separation * impulse_per_distance
  let impulse := lambda_n * normal
  { lambda_n := lambda_n,
    lambda_t := 0,
    delta_position0 := impulse * inverse_mass0,
    delta_position1 := impulse * (-inverse_mass1) }

/-- Per-substep displacement of the two contact points of a
particle-particle pair, projected into the tangent plane, as the claim and
spec section 4.10 define the "tangential contact movement" (the source
computes no such quantity for particle-particle pairs). -/
def claimed_pp_tangential_movement (position0 previous_position0 position1
    previous_position1 normal : Vec3) : Vec3 :=
  perp_unit ((position0 - previous_position0) - (position1 - previous_position1))
    normal

/-- Inputs of the particle-rigid-body contact solve (the fields of
Particle_data and Rigid_body_data that world.cpp lines 911-963 read,
plus the contact's normal, relative position and separation). -/
structure Pr_contact_input where
  particle_position : Vec3
  particle_previous_position : Vec3
  particle_inverse_mass : ℚ
  particle_static_friction_coefficient : ℚ
  body_position : Vec3
  body_previous_position : Vec3
  body_orientation : Quat
  body_previous_orientation : Quat
  body_inverse_mass : ℚ
  body_inverse_inertia_tensor : Mat3
  body_static_friction_coefficient : ℚ
  normal : Vec3
  relative_position1 : Vec3
  separation : ℚ
deriving DecidableEq, Repr

/-- Output of the particle-rigid-body contact solve: the recorded lambdas
and the deltas that update_position then adds to the particle position,
the body position and (via the quaternion derivative) the body
orientation. -/
structure Pr_contact_result where
  lambda_n : ℚ
  lambda_t : ℚ
  delta_position0 : Vec3
  delta_position1 : Vec3
  delta_orientation1 : Vec3
deriving DecidableEq, Repr

/-- The world-space inverse inertia tensor R I^-1 R^T computed at
world.cpp lines 916-919. -/
def pr_inverse_inertia_tensor (input : Pr_contact_input) : Mat3 :=
  let rotation := Mat3.rotation input.body_orientation
  (rotation.mul input.body_inverse_inertia_tensor).mul rotation.transpose

/-- The separation (normal) constraint problem of world.cpp lines 920-926. -/
def pr_separation_problem (input : Pr_contact_input) :
    Positional_constraint_problem :=
  { direction := input.normal,
    distance := -input.separation,
    relative_position0 := Vec3.zero,
    relative_position1 := input.relative_position1,
    inverse_mass0 := input.particle_inverse_mass,
    inverse_mass1 := input.body_inverse_mass,
    inverse_inertia_tensor0 := Mat3.zero,
    inverse_inertia_tensor1 := pr_inverse_inertia_tensor input }

/-- The contact movement of world.cpp lines 928-933: the particle's
per-substep displacement minus the displacement of the body-side contact
point (current position plus relative position, minus the previous
position of that material point reconstructed through the previous
orientation). -/
def pr_contact_movement (input : Pr_contact_input) : Vec3 :=
  (input.particle_position - input.particle_previous_position) -
    ((input.body_position + input.relative_position1) -
      (input.body_previous_position +
        ((Mat3.rotation input.body_previous_orientation).mul
            (Mat3.rotation input.body_orientation).transpose).mulVec
          input.relative_position1))

/-- The tangential contact movement of world.cpp lines 934-935. -/
def pr_tangential_contact_movement (input : Pr_contact_input) : Vec3 :=
  perp_unit (pr_contact_movement input) input.normal

/-- The friction constraint problem of world.cpp lines 942-949: direction
along the negated tangential movement, distance equal to the tangential
movement's magnitude. -/
def pr_friction_problem (sqrtQ : ℚ → ℚ) (input : Pr_contact_input) :
    Positional_constraint_problem :=
  let tangential_contact_movement := pr_tangential_contact_movement input
  let correction_distance := sqrtQ (Vec3.length2 tangential_contact_movement)
  { direction := tangential_contact_movement / (-correction_distance),
    distance := correction_distance,
    relative_position0 := Vec3.zero,
    relative_position1 := input.relative_position1,
    inverse_mass0 := input.particle_inverse_mass,
    inverse_mass1 := input.body_inverse_mass,
    inverse_inertia_tensor0 := Mat3.zero,
    inverse_inertia_tensor1 := pr_inverse_inertia_tensor input }

/-- Embeds world.cpp lines 911-963, solve_contact for a
particle-rigid-body pair: solve the normal constraint, record lambda_n,
then, if the tangential contact movement is non-zero, solve the friction
constraint and accept it (record lambda_t, add its deltas) exactly when
its delta_lambda is below the static-friction cone
mu_s * lambda_n with mu_s the mean static friction coefficient.  The
returned deltas are what lines 961-962 hand to update_position. -/
def solve_contact_pr (sqrtQ : ℚ → ℚ) (input : Pr_contact_input) :
    Pr_contact_result :=
  let separation_solution := solve_positional_constraint (pr_separation_problem input)
  let lambda_n := separation_solution.delta_lambda
  let tangential_contact_movement := pr_tangential_contact_movement input
  let base : Pr_contact_result :=
    { lambda_n := lambda_n,
      lambda_t := 0,
      delta_position0 := separation_solution.delta_position0,
      delta_position1 := separation_solution.delta_position1,
      delta_orientation1 := separation_solution.delta_orientation1 }
  if tangential_contact_movement ≠ Vec3.zero then
    let friction_solution := solve_positional_constraint (pr_friction_problem sqrtQ input)
    let static_friction_coefficient :=
      (1 : ℚ) / 2 * (input.particle_static_friction_coefficient +
        input.body_static_friction_coefficient)
    if friction_solution.delta_lambda < static_friction_coefficient * lambda_n then
      { lambda_n := lambda_n,
        lambda_t := friction_solution.delta_lambda,
        delta_position0 := separation_solution.delta_position0 +
          friction_solution.delta_position0,
        delta_position1 := separation_solution.delta_position1 +
          friction_solution.delta_position1,
        delta_orientation1 := separation_solution.delta_orientation1 +
          friction_solution.delta_orientation1 }
    else base
  else base

/-- C3 counterexample: a particle-particle pair in contact (masses 1,
normal +X, separation -1, so lambda_n = 1/2) whose tangential contact
movement (0,1,0) is non-zero, and whose claim-side solved tangential
lambda |t| / (m_1^-1 + m_2^-1) = 1/2 lies inside the static-friction cone
mu_s * lambda_n = 2 * 1/2 = 1 (mean static friction 2), so the claim
predicts an accepted tangential correction with lambda_t = 1/2; the
particle-particle kernel nevertheless records lambda_t = 0 and its
position deltas have no tangential component at all. -/
theorem c3_pp_pair_never_gets_tangential_correction :
    claimed_pp_tangential_movement ⟨0, 1, 0⟩ ⟨0, 0, 0⟩ ⟨0, 0, 0⟩ ⟨0, 0, 0⟩
        ⟨1, 0, 0⟩ ≠ Vec3.zero ∧
      (1 : ℚ) / 2 < 2 * (solve_contact_pp 1 1 ⟨1, 0, 0⟩ (-1)).lambda_n ∧
      (solve_contact_pp 1 1 ⟨1, 0, 0⟩ (-1)).lambda_t = 0 ∧
      perp_unit (solve_contact_pp 1 1 ⟨1, 0, 0⟩ (-1)).delta_position0 ⟨1, 0, 0⟩ =
        Vec3.zero ∧
      perp_unit (solve_contact_pp 1 1 ⟨1, 0, 0⟩ (-1)).delta_position1 ⟨1, 0, 0⟩ =
        Vec3.zero := by
  refine ⟨?_, ?_, ?_, ?_, ?_⟩ <;>
    norm_num [claimed_pp_tangential_movement, solve_contact_pp, perp_unit,
      Vec3.dot, Vec3.zero, Vec3.mk.injEq]

/-- C3 (amended): in the particle-rigid-body position-solve kernel, when
the tangential contact movement is non-zero a tangential correction of
magnitude equal to that movement is attempted (the friction problem's
distance is the movement's length and its direction the negated unit
tangential movement), and it is accepted - lambda_t set to the solved
lambda and the friction deltas added to the applied position/orientation
deltas - exactly when the solved lambda is below mu_s * lambda_n with
mu_s the mean static friction coefficient; otherwise only the normal
correction is applied.  Particle-particle pairs, by contrast, never
receive any tangential correction: their lambda_t is identically 0 and
their deltas are the pure normal correction. -/
theorem c3_static_friction_cone_acceptance (sqrtQ : ℚ → ℚ)
    (input : Pr_contact_input)
    (ht : pr_tangential_contact_movement input ≠ Vec3.zero) :
    ((pr_friction_problem sqrtQ input).distance =
        sqrtQ (Vec3.length2 (pr_tangential_contact_movement input)) ∧
      (pr_friction_problem sqrtQ input).direction =
        pr_tangential_contact_movement input /
          (-sqrtQ (Vec3.length2 (pr_tangential_contact_movement input)))) ∧
    ((solve_positional_constraint (pr_friction_problem sqrtQ input)).delta_lambda <
        (1 : ℚ) / 2 * (input.particle_static_friction_coefficient +
          input.body_static_friction_coefficient) *
          (solve_positional_constraint (pr_separation_problem input)).delta_lambda →
      solve_contact_pr sqrtQ input =
        { lambda_n := (solve_positional_constraint (pr_separation_problem input)).delta_lambda,
          lambda_t := (solve_positional_constraint (pr_friction_problem sqrtQ input)).delta_lambda,
          delta_position0 :=
            (solve_positional_constraint (pr_separation_problem input)).delta_position0 +
              (solve_positional_constraint (pr_friction_problem sqrtQ input)).delta_position0,
          delta_position1 :=
            (solve_positional_constraint (pr_separation_problem input)).delta_position1 +
              (solve_positional_constraint (pr_friction_problem sqrtQ input)).delta_position1,
          delta_orientation1 :=
            (solve_positional_constraint (pr_separation_problem input)).delta_orientation1 +
              (solve_positional_constraint (pr_friction_problem sqrtQ input)).delta_orientation1 }) ∧
    ((1 : ℚ) / 2 * (input.particle_static_friction_coefficient +
          input.body_static_friction_coefficient) *
          (solve_positional_constraint (pr_separation_problem input)).delta_lambda ≤
        (solve_positional_constraint (pr_friction_problem sqrtQ input)).delta_lambda →
      solve_contact_pr sqrtQ input =
        { lambda_n := (solve_positional_constraint (pr_separation_problem input)).delta_lambda,
          lambda_t := 0,
          delta_position0 :=
            (solve_positional_constraint (pr_separation_problem input)).delta_position0,
          delta_position1 :=
            (solve_positional_constraint (pr_separation_problem input)).delta_position1,
          delta_orientation1 :=
            (solve_positional_constraint (pr_separation_problem input)).delta_orientation1 }) ∧
    ∀ inverse_mass0 inverse_mass1 normal separation,
      (solve_contact_pp inverse_mass0 inverse_mass1 normal separation).lambda_t = 0 ∧
        (solve_contact_pp inverse_mass0 inverse_mass1 normal separation).delta_position0 =
          ((solve_contact_pp inverse_mass0 inverse_mass1 normal separation).lambda_n *
              normal) * inverse_mass0 ∧
        (solve_contact_pp inverse_mass0 inverse_mass1 normal separation).delta_position1 =
          ((solve_contact_pp inverse_mass0 inverse_mass1 normal separation).lambda_n *
              normal) * (-inverse_mass1) := by
  refine ⟨⟨rfl, rfl⟩, ?_, ?_, fun m0 m1 n s => ⟨rfl, rfl, rfl⟩⟩
  · intro hacc
    simp only [solve_contact_pr]
    rw [if_pos ht, if_pos hacc]
  · intro hrej
    simp only [solve_contact_pr]
    rw [if_pos ht, if_neg (not_lt_of_le hrej)]

/-- A concrete particle-rigid-body contact: particle moved tangentially by
(0,1,0) this substep, unit masses, identity orientations, zero inverse
inertia, normal +X, separation -1, mean static friction 2. -/
def c3_witness_input : Pr_contact_input :=
  { particle_position := ⟨0, 1, 0⟩,
    particle_previous_position := ⟨0, 0, 0⟩,
    particle_inverse_mass := 1,
    particle_static_friction_coefficient := 2,
    body_position := ⟨0, 0, 0⟩,
    body_previous_position := ⟨0, 0, 0⟩,
    body_orientation := Quat.identity,
    body_previous_orientation := Quat.identity,
    body_inverse_mass := 1,
    body_inverse_inertia_tensor := Mat3.zero,
    body_static_friction_coefficient := 2,
    normal := ⟨1, 0, 0⟩,
    relative_position1 := ⟨0, 0, 0⟩,
    separation := -1 }

/-- Witness for the C3 theorem: on c3_witness_input the tangential contact
movement is the non-zero (0,1,0), the solved friction lambda 1/2 lies
inside the cone 2 * (1/2), and the kernel accepts: lambda_t = 1/2 and the
friction delta is folded into the position deltas. -/
theorem c3_static_friction_cone_witness :
    pr_tangential_contact_movement c3_witness_input ≠ Vec3.zero ∧
      solve_contact_pr (fun _ => 1) c3_witness_input =
        { lambda_n := 1 / 2,
          lambda_t := 1 / 2,
          delta_position0 := ⟨1 / 2, -(1 / 2), 0⟩,
          delta_position1 := ⟨-(1 / 2), 1 / 2, 0⟩,
          delta_orientation1 := ⟨0, 0, 0⟩ } := by
  have ht : pr_tangential_contact_movement c3_witness_input ≠ Vec3.zero := by
    norm_num [pr_tangential_contact_movement, pr_contact_movement,
      c3_witness_input, perp_unit, Vec3.dot, Vec3.zero, Vec3.cross,
      Mat3.rotation, Mat3.mul, Mat3.mulVec, Mat3.transpose, Quat.identity,
      Vec3.mk.injEq]
  have h := c3_static_friction_cone_acceptance (fun _ => 1) c3_witness_input ht
  refine ⟨ht, (h.2.1 ?_).trans ?_⟩ <;>
    norm_num [solve_positional_constraint, pr_separation_problem,
      pr_friction_problem, pr_inverse_inertia_tensor,
      pr_tangential_contact_movement, pr_contact_movement, c3_witness_input,
      perp_unit, Vec3.dot, Vec3.zero, Vec3.cross, Vec3.length2, Mat3.rotation,
      Mat3.mul, Mat3.mulVec, Mat3.transpose, Mat3.zero, Quat.identity,
      Vec3.mk.injEq, Pr_contact_result.mk.injEq]

/-! ## Graph coloring of a neighbor group
(src/physics/world.cpp lines 2111-2171, World::Impl::color_neighbor_group,
together with the reserved color sentinels of lines 48-51).

A component's pairs are indexed 0 .. pair_count-1 in group order.  Each
pair's neighbor list is the concatenation of the neighbor-pair slices of
its dynamic endpoints (lines 2127-2147); static endpoints own no slice, so
two pairs whose only common object is a static body are not neighbors. -/

/-- An object handle tagged by its class, as carried by Neighbor_pair
(particle / rigid body index pairs plus the pair type tag identify the
objects; a static body never equals a dynamic object even at equal raw
index). -/
inductive Obj where
  | particle (index : ℕ)
  | rigid_body (index : ℕ)
  | static_body (index : ℕ)
deriving DecidableEq, Repr

/-- Particles and rigid bodies are dynamic; static bodies are not. -/
def Obj.isDynamic : Obj → Bool
  | .particle _ => true
  | .rigid_body _ => true
  | .static_body _ => false

/-- The color field of a Neighbor_pair: the sentinels color_unmarked
(0xFFFF) and color_marked (0xFFFE), or a real color. -/
inductive Pair_color where
  | unmarked : Pair_color
  | marked : Pair_color
  | colored : ℕ → Pair_color
deriving DecidableEq, Repr

/-- max_colors = 2^16 minus the two reserved sentinel values
(world.cpp lines 48-51). -/
def max_colors : ℕ := 2 ^ 16 - 2

/-- The data of one neighbor group that the coloring pass reads: how many
pairs the group has, each pair's object set, and each pair's neighbor
list. -/
structure Coloring_instance where
  pair_count : ℕ
  objects : ℕ → List Obj
  neighbors : ℕ → List ℕ

/-- The mutable state of the coloring pass: every pair's color field and
the BFS fringe queue (_coloring_fringe; front of the list is the front of
the queue). -/
structure Coloring_state where
  colors : ℕ → Pair_color
  fringe : List ℕ

/-- Embeds one iteration of the neighbor scan at world.cpp lines
2149-2158: an unmarked neighbor is marked and enqueued; a neighbor whose
color is neither sentinel contributes its color to the coloring bits
(second component, the set of colors seen). -/
def scan_neighbor (s : Coloring_state × List ℕ) (q : ℕ) :
    Coloring_state × List ℕ :=
  match s.1.colors q with
  | .unmarked =>
      ({ colors := fun j => if j = q then .marked else s.1.colors j,
         fringe := s.1.fringe ++ [q] }, s.2)
  | .marked => s
  | .colored c => (s.1, s.2 ++ [c])

/-- The full neighbor scan over both endpoints' slices, starting from
freshly reset coloring bits (_coloring_bits.reset(), line 2148). -/
def scan_neighbors (st : Coloring_state) (qs : List ℕ) :
    Coloring_state × List ℕ :=
  qs.foldl scan_neighbor (st, [])

/-- Embeds the bit scan of world.cpp lines 2159-2166: starting from index
i with the given number of remaining indices, the first color whose bit is
unset, if any. -/
def find_unset_color (bits : List ℕ) : ℕ → ℕ → Option ℕ
  | _, 0 => none
  | i, fuel + 1 =>
      if i ∈ bits then find_unset_color bits (i + 1) fuel else some i

/-- Embeds the body of the coloring do-while loop (world.cpp lines
2124-2169) for popped pair p with remaining fringe rest: scan the
neighbors, pick the smallest unset color below max_colors, assign it.
Returns none where the source throws "Failed to color neighbor group"
(the pair would have remained marked after the bit scan). -/
def color_step (g : Coloring_instance) (st : Coloring_state) (p : ℕ)
    (rest : List ℕ) : Option Coloring_state :=
  let scanned := scan_neighbors { colors := st.colors, fringe := rest } (g.neighbors p)
  match find_unset_color scanned.2 0 max_colors with
  | none => none
  | some c =>
      some { colors := fun j => if j = p then .colored c else scanned.1.colors j,
             fringe := scanned.1.fringe }

/-- The coloring do-while loop, fuel-bounded (every pair enters the fringe
at most once, so fuel pair_count always suffices); none models both fuel
exhaustion and the coloring-failure throw. -/
def color_run (g : Coloring_instance) : ℕ → Coloring_state → Option Coloring_state
  | _, ⟨colors, []⟩ => some ⟨colors, []⟩
  | 0, ⟨_, _ :: _⟩ => none
  | fuel + 1, ⟨colors, p :: rest⟩ =>
      match color_step g ⟨colors, p :: rest⟩ p rest with
      | none => none
      | some st => color_run g fuel st

/-- Embeds the initialization at world.cpp lines 2118-2123: every pair of
the group reset to unmarked, then the seed pair marked and enqueued. -/
def color_init (seed : ℕ) : Coloring_state :=
  { colors := fun j => if j = seed then .marked else .unmarked,
    fringe := [seed] }

/-- The neighbor lists are exactly adjacency through a shared dynamic
object: within the group, q is on p's neighbor list exactly when the two
pairs share a particle or rigid body (each pair sits on the slice of each
of its dynamic endpoints, so this also makes every pair its own
neighbor).  This is the slice well-formedness established by
assign_neighbor_pairs (world.cpp lines 1876-1912). -/
def neighbors_wf (g : Coloring_instance) : Prop :=
  ∀ p, p < g.pair_count → ∀ q, q < g.pair_count →
    (q ∈ g.neighbors p ↔
      ∃ o ∈ g.objects p, o.isDynamic = true ∧ o ∈ g.objects q)

/-- Neighbor lists stay inside the group (a pair adjacent to a group
member belongs to the same connected component). -/
def neighbors_closed (g : Coloring_instance) : Prop :=
  ∀ p, p < g.pair_count → ∀ q ∈ g.neighbors p, q < g.pair_count

theorem scan_neighbor_eq_of_marked (s : Coloring_state × List ℕ) (q : ℕ)
    (hq : s.1.colors q = .marked) : scan_neighbor s q = s := by
  simp [scan_neighbor, hq]

theorem scan_neighbor_fst_of_colored (s : Coloring_state × List ℕ) (q d : ℕ)
    (hq : s.1.colors q = .colored d) : (scan_neighbor s q).1 = s.1 := by
  simp [scan_neighbor, hq]

theorem scan_neighbor_colored_iff (s : Coloring_state × List ℕ) (q j c : ℕ) :
    ((scan_neighbor s q).1.colors j = .colored c) ↔ (s.1.colors j = .colored c) := by
  rcases h : s.1.colors q with _ | _ | d
  · by_cases hj : j = q
    · subst hj
      simp [scan_neighbor, h]
    · simp [scan_neighbor, h, hj]
  · simp [scan_neighbor, h]
  · simp [scan_neighbor, h]

theorem scan_neighbor_unmarked_back (s : Coloring_state × List ℕ) (q j : ℕ)
    (h : (scan_neighbor s q).1.colors j = .unmarked) : s.1.colors j = .unmarked := by
  rcases hq : s.1.colors q with _ | _ | d
  · by_cases hj : j = q
    · subst hj
      exact hq
    · simpa [scan_neighbor, hq, hj] using h
  · simpa [scan_neighbor, hq] using h
  · simpa [scan_neighbor, hq] using h

theorem scan_foldl_colored_iff (qs : List ℕ) (j c : ℕ) :
    ∀ s : Coloring_state × List ℕ,
      ((qs.foldl scan_neighbor s).1.colors j = .colored c) ↔
        (s.1.colors j = .colored c) := by
  induction qs with
  | nil => intro s; exact Iff.rfl
  | cons q qs ih =>
      intro s
      rw [List.foldl_cons]
      exact (ih (scan_neighbor s q)).trans (scan_neighbor_colored_iff s q j c)

theorem scan_neighbor_bits_prefix (s : Coloring_state × List ℕ) (q : ℕ) :
    ∃ extra, (scan_neighbor s q).2 = s.2 ++ extra := by
  rcases h : s.1.colors q with _ | _ | d
  · exact ⟨[], by simp [scan_neighbor, h]⟩
  · exact ⟨[], by simp [scan_neighbor, h]⟩
  · exact ⟨[d], by simp [scan_neighbor, h]⟩

theorem scan_foldl_bits_prefix (qs : List ℕ) :
    ∀ s : Coloring_state × List ℕ,
      ∃ extra, (qs.foldl scan_neighbor s).2 = s.2 ++ extra := by
  induction qs with
  | nil => intro s; exact ⟨[], by simp⟩
  | cons q qs ih =>
      intro s
      rw [List.foldl_cons]
      obtain ⟨e1, h1⟩ := scan_neighbor_bits_prefix s q
      obtain ⟨e2, h2⟩ := ih (scan_neighbor s q)
      exact ⟨e1 ++ e2, by rw [h2, h1, List.append_assoc]⟩

theorem scan_foldl_bits_sound (qs : List ℕ) (c : ℕ) :
    ∀ s : Coloring_state × List ℕ, c ∈ (qs.foldl scan_neighbor s).2 →
      c ∈ s.2 ∨ ∃ q ∈ qs, s.1.colors q = .colored c := by
  induction qs with
  | nil => intro s hc; exact Or.inl hc
  | cons q qs ih =>
      intro s hc
      rw [List.foldl_cons] at hc
      rcases ih (scan_neighbor s q) hc with h1 | ⟨r, hr, hcol⟩
      · rcases h : s.1.colors q with _ | _ | d
        · simp only [scan_neighbor, h] at h1
          exact Or.inl h1
        · simp only [scan_neighbor, h] at h1
          exact Or.inl h1
        · simp only [scan_neighbor, h] at h1
          rcases List.mem_append.mp h1 with h2 | h2
          · exact Or.inl h2
          · rw [List.mem_singleton] at h2
            subst h2
            exact Or.inr ⟨q, List.mem_cons_self q qs, h⟩
      · exact Or.inr ⟨r, List.mem_cons_of_mem _ hr,
          (scan_neighbor_colored_iff s q r c).mp hcol⟩

theorem scan_foldl_bits_complete (qs : List ℕ) (q c : ℕ) :
    ∀ s : Coloring_state × List ℕ, q ∈ qs → s.1.colors q = .colored c →
      c ∈ (qs.foldl scan_neighbor s).2 := by
  induction qs with
  | nil => intro s hq _; cases hq
  | cons r rs ih =>
      intro s hq hc
      rw [List.foldl_cons]
      rcases List.mem_cons.mp hq with rfl | hq2
      · obtain ⟨extra, hx⟩ := scan_foldl_bits_prefix rs (scan_neighbor s q)
        rw [hx]
        apply List.mem_append_left
        simp [scan_neighbor, hc]
      · exact ih (scan_neighbor s r) hq2 ((scan_neighbor_colored_iff s r q c).mpr hc)

/-- Fringe and marking sanity preserved by the neighbor scan: every fringe
entry is marked and the fringe has no duplicates. -/
def Scan_ok (s : Coloring_state × List ℕ) : Prop :=
  (∀ j ∈ s.1.fringe, s.1.colors j = .marked) ∧ s.1.fringe.Nodup

theorem scan_neighbor_preserves_ok (s : Coloring_state × List ℕ) (q : ℕ)
    (h : Scan_ok s) : Scan_ok (scan_neighbor s q) := by
  obtain ⟨hm, hnd⟩ := h
  rcases hq : s.1.colors q with _ | _ | d
  · constructor
    · intro j hj
      simp only [scan_neighbor, hq] at hj ⊢
      rcases List.mem_append.mp hj with hj1 | hj2
      · by_cases hjq : j = q
        · simp [hjq]
        · simp only [hjq, if_false]
          exact hm j hj1
      · rw [List.mem_singleton] at hj2
        simp [hj2]
    · simp only [scan_neighbor, hq]
      refine List.Nodup.append hnd (List.nodup_singleton q) ?_
      intro a ha hb
      rw [List.mem_singleton] at hb
      subst hb
      rw [hm a ha] at hq
      cases hq
  · rw [scan_neighbor_eq_of_marked s q hq]
    exact ⟨hm, hnd⟩
  · unfold Scan_ok
    rw [scan_neighbor_fst_of_colored s q d hq]
    exact ⟨hm, hnd⟩

theorem scan_foldl_preserves_ok (qs : List ℕ) :
    ∀ s : Coloring_state × List ℕ, Scan_ok s → Scan_ok (qs.foldl scan_neighbor s) := by
  induction qs with
  | nil => intro s h; exact h
  | cons q qs ih =>
      intro s h
      rw [List.foldl_cons]
      exact ih (scan_neighbor s q) (scan_neighbor_preserves_ok s q h)

theorem scan_neighbor_fringe_mem (s : Coloring_state × List ℕ) (q j : ℕ)
    (hj : j ∈ (scan_neighbor s q).1.fringe) :
    j ∈ s.1.fringe ∨ (j = q ∧ s.1.colors j = .unmarked) := by
  rcases hq : s.1.colors q with _ | _ | d
  · simp only [scan_neighbor, hq] at hj
    rcases List.mem_append.mp hj with h1 | h2
    · exact Or.inl h1
    · rw [List.mem_singleton] at h2
      subst h2
      exact Or.inr ⟨rfl, hq⟩
  · rw [scan_neighbor_eq_of_marked s q hq] at hj
    exact Or.inl hj
  · rw [scan_neighbor_fst_of_colored s q d hq] at hj
    exact Or.inl hj

theorem scan_foldl_fringe_mem (qs : List ℕ) (j : ℕ) :
    ∀ s : Coloring_state × List ℕ, j ∈ (qs.foldl scan_neighbor s).1.fringe →
      j ∈ s.1.fringe ∨ (j ∈ qs ∧ s.1.colors j = .unmarked) := by
  induction qs with
  | nil => intro s hj; exact Or.inl hj
  | cons r rs ih =>
      intro s hj
      rw [List.foldl_cons] at hj
      rcases ih (scan_neighbor s r) hj with h1 | ⟨h2, h3⟩
      · rcases scan_neighbor_fringe_mem s r j h1 with h4 | ⟨h5, h6⟩
        · exact Or.inl h4
        · exact Or.inr ⟨h5 ▸ List.mem_cons_self r rs, h6⟩
      · exact Or.inr ⟨List.mem_cons_of_mem _ h2, scan_neighbor_unmarked_back s r j h3⟩

theorem find_unset_color_spec (bits : List ℕ) :
    ∀ start fuel c, find_unset_color bits start fuel = some c →
      c ∉ bits ∧ start ≤ c ∧ ∀ j, start ≤ j → j < c → j ∈ bits := by
  intro start fuel
  induction fuel generalizing start with
  | zero => intro c h; cases h
  | succ n ih =>
      intro c h
      unfold find_unset_color at h
      by_cases hs : start ∈ bits
      · rw [if_pos hs] at h
        obtain ⟨h1, h2, h3⟩ := ih (start + 1) c h
        refine ⟨h1, by omega, fun j hj1 hj2 => ?_⟩
        rcases Nat.eq_or_lt_of_le hj1 with rfl | hj3
        · exact hs
        · exact h3 j hj3 hj2
      · rw [if_neg hs] at h
        obtain rfl := Option.some.inj h
        exact ⟨hs, le_refl _, fun j hj1 hj2 => absurd hj1 (by omega)⟩

/-- The invariant carried through the coloring BFS: the partial coloring
is proper along the neighbor lists, fringe entries are marked, duplicate
free and in range, assigned colors belong to in-range pairs, and the set
of assigned colors is downward closed. -/
structure Coloring_inv (g : Coloring_instance) (s : Coloring_state) : Prop where
  proper : ∀ p q c, p ≠ q → q ∈ g.neighbors p →
    s.colors p = .colored c → s.colors q ≠ .colored c
  fringe_marked : ∀ p ∈ s.fringe, s.colors p = .marked
  fringe_nodup : s.fringe.Nodup
  fringe_in_range : ∀ p ∈ s.fringe, p < g.pair_count
  colored_in_range : ∀ p c, s.colors p = .colored c → p < g.pair_count
  downward : ∀ p c, s.colors p = .colored c → ∀ d, d < c →
    ∃ q, q < g.pair_count ∧ s.colors q = .colored d

theorem color_step_preserves_inv (g : Coloring_instance)
    (hadj : neighbors_wf g) (hcl : neighbors_closed g)
    (colors : ℕ → Pair_color) (p : ℕ) (rest : List ℕ)
    (hinv : Coloring_inv g ⟨colors, p :: rest⟩) (s2 : Coloring_state)
    (hstep : color_step g ⟨colors, p :: rest⟩ p rest = some s2) :
    Coloring_inv g s2 := by
  have hp_marked : colors p = .marked :=
    hinv.fringe_marked p (List.mem_cons_self p rest)
  have hp_range : p < g.pair_count :=
    hinv.fringe_in_range p (List.mem_cons_self p rest)
  have hrest_nodup : rest.Nodup := (List.nodup_cons.mp hinv.fringe_nodup).2
  have hp_notin_rest : p ∉ rest := (List.nodup_cons.mp hinv.fringe_nodup).1
  simp only [color_step, scan_neighbors] at hstep
  set s0 : Coloring_state × List ℕ := (⟨colors, rest⟩, []) with hs0
  set scanned := (g.neighbors p).foldl scan_neighbor s0 with hscanned
  have hok : Scan_ok scanned := by
    refine scan_foldl_preserves_ok (g.neighbors p) s0 ⟨?_, ?_⟩
    · intro j hj
      exact hinv.fringe_marked j (List.mem_cons_of_mem p hj)
    · exact hrest_nodup
  have hcolored_iff : ∀ j c, scanned.1.colors j = .colored c ↔ colors j = .colored c :=
    fun j c => scan_foldl_colored_iff (g.neighbors p) j c s0
  have hbits_sound : ∀ c, c ∈ scanned.2 →
      ∃ q ∈ g.neighbors p, colors q = .colored c := by
    intro c hc
    rcases scan_foldl_bits_sound (g.neighbors p) c s0 hc with h | h
    · cases h
    · exact h
  have hbits_complete : ∀ q ∈ g.neighbors p, ∀ c, colors q = .colored c →
      c ∈ scanned.2 :=
    fun q hq c hc => scan_foldl_bits_complete (g.neighbors p) q c s0 hq hc
  have hfringe_mem : ∀ j, j ∈ scanned.1.fringe →
      j ∈ rest ∨ (j ∈ g.neighbors p ∧ colors j = .unmarked) :=
    fun j hj => scan_foldl_fringe_mem (g.neighbors p) j s0 hj
  have hp_notin_scanned : p ∉ scanned.1.fringe := by
    intro hmem
    rcases hfringe_mem p hmem with h | ⟨_, h⟩
    · exact hp_notin_rest h
    · rw [hp_marked] at h
      cases h
  cases hfind : find_unset_color scanned.2 0 max_colors with
  | none => rw [hfind] at hstep; cases hstep
  | some c =>
      rw [hfind] at hstep
      obtain rfl := Option.some.inj hstep
      obtain ⟨hc_notin, _, hc_below⟩ := find_unset_color_spec scanned.2 0 max_colors c hfind
      have hsym : ∀ a b, a < g.pair_count → b < g.pair_count →
          b ∈ g.neighbors a → a ∈ g.neighbors b := by
        intro a b ha hb hab
        obtain ⟨o, ho_a, ho_dyn, ho_b⟩ := (hadj a ha b hb).mp hab
        exact (hadj b hb a ha).mpr ⟨o, ho_b, ho_dyn, ho_a⟩
      constructor
      · intro a b cc hab hadj_ab hca hcb
        simp only [] at hca hcb
        by_cases hap : a = p
        · rw [if_pos hap] at hca
          have hcc : c = cc := Pair_color.colored.inj hca
          subst hcc
          have hbp : b ≠ p := fun h => hab (by rw [hap, h])
          rw [if_neg hbp, hcolored_iff] at hcb
          rw [hap] at hadj_ab
          exact hc_notin (hbits_complete b hadj_ab c hcb)
        · rw [if_neg hap, hcolored_iff] at hca
          by_cases hbp : b = p
          · rw [if_pos hbp] at hcb
            have hcc : c = cc := Pair_color.colored.inj hcb
            subst hcc
            have ha_range : a < g.pair_count := hinv.colored_in_range a c hca
            have hmem : a ∈ g.neighbors p := by
              rw [hbp] at hadj_ab
              exact hsym a p ha_range hp_range hadj_ab
            exact hc_notin (hbits_complete a hmem c hca)
          · rw [if_neg hbp, hcolored_iff] at hcb
            exact hinv.proper a b cc hab hadj_ab hca hcb
      · intro j hj
        simp only [] at hj ⊢
        have hjp : j ≠ p := fun h => hp_notin_scanned (h ▸ hj)
        rw [if_neg hjp]
        exact hok.1 j hj
      · exact hok.2
      · intro j hj
        simp only [] at hj
        rcases hfringe_mem j hj with h | ⟨h, _⟩
        · exact hinv.fringe_in_range j (List.mem_cons_of_mem p h)
        · exact hcl p hp_range j h
      · intro j cc hc
        simp only [] at hc
        by_cases hjp : j = p
        · exact hjp ▸ hp_range
        · rw [if_neg hjp, hcolored_iff] at hc
          exact hinv.colored_in_range j cc hc
      · intro j cc hc d hd
        simp only [] at hc
        by_cases hjp : j = p
        · rw [if_pos hjp] at hc
          have hcc : c = cc := Pair_color.colored.inj hc
          subst hcc
          have hdbits : d ∈ scanned.2 := hc_below d (Nat.zero_le d) hd
          obtain ⟨q, hq_mem, hq_col⟩ := hbits_sound d hdbits
          have hq_range : q < g.pair_count := hinv.colored_in_range q d hq_col
          have hqp : q ≠ p := by
            intro h
            rw [h, hp_marked] at hq_col
            cases hq_col
          refine ⟨q, hq_range, ?_⟩
          show (if q = p then Pair_color.colored c else scanned.1.colors q) =
            Pair_color.colored d
          rw [if_neg hqp, hcolored_iff]
          exact hq_col
        · rw [if_neg hjp, hcolored_iff] at hc
          obtain ⟨q, hq_range, hq_col⟩ := hinv.downward j cc hc d hd
          have hq_col2 : colors q = .colored d := hq_col
          have hqp : q ≠ p := by
            intro h
            rw [h, hp_marked] at hq_col2
            cases hq_col2
          refine ⟨q, hq_range, ?_⟩
          show (if q = p then Pair_color.colored c else scanned.1.colors q) =
            Pair_color.colored d
          rw [if_neg hqp, hcolored_iff]
          exact hq_col2

theorem color_run_preserves_inv (g : Coloring_instance)
    (hadj : neighbors_wf g) (hcl : neighbors_closed g) :
    ∀ fuel (s s2 : Coloring_state), Coloring_inv g s →
      color_run g fuel s = some s2 → Coloring_inv g s2 := by
  intro fuel
  induction fuel with
  | zero =>
      intro s s2 hinv hrun
      obtain ⟨colors, fringe⟩ := s
      cases fringe with
      | nil =>
          obtain rfl := Option.some.inj hrun
          exact hinv
      | cons p rest => cases hrun
  | succ n ih =>
      intro s s2 hinv hrun
      obtain ⟨colors, fringe⟩ := s
      cases fringe with
      | nil =>
          obtain rfl := Option.some.inj hrun
          exact hinv
      | cons p rest =>
          unfold color_run at hrun
          cases hstep : color_step g ⟨colors, p :: rest⟩ p rest with
          | none => rw [hstep] at hrun; cases hrun
          | some s1 =>
              rw [hstep] at hrun
              exact ih s1 s2
                (color_step_preserves_inv g hadj hcl colors p rest hinv s1 hstep)
                hrun

theorem color_init_inv (g : Coloring_instance) (seed : ℕ)
    (hseed : seed < g.pair_count) : Coloring_inv g (color_init seed) := by
  constructor
  · intro a b c _ _ hca
    by_cases h : a = seed <;> simp [color_init, h] at hca
  · intro j hj
    simp only [color_init, List.mem_singleton] at hj
    simp [color_init, hj]
  · exact List.nodup_singleton seed
  · intro j hj
    simp only [color_init, List.mem_singleton] at hj
    exact hj ▸ hseed
  · intro j c hc
    by_cases h : j = seed <;> simp [color_init, h] at hc
  · intro j c hc
    by_cases h : j = seed <;> simp [color_init, h] at hc

/-- C1 (amended): after a component's coloring pass completes, any two
distinct pairs assigned the same numeric color share no dynamic object
(no particle and no rigid body).  They may share a static body - static
endpoints own no neighbor-pair slice, so pairs whose only common object
is a static body are never adjacent for the coloring. -/
theorem c1_same_color_pairs_share_no_dynamic_object (g : Coloring_instance)
    (hadj : neighbors_wf g) (hcl : neighbors_closed g) (seed fuel : ℕ)
    (hseed : seed < g.pair_count) (s : Coloring_state)
    (hrun : color_run g fuel (color_init seed) = some s) :
    ∀ p q c, p ≠ q → s.colors p = .colored c → s.colors q = .colored c →
      ∀ o ∈ g.objects p, o.isDynamic = true → o ∉ g.objects q := by
  have hinv := color_run_preserves_inv g hadj hcl fuel (color_init seed) s
    (color_init_inv g seed hseed) hrun
  intro p q c hpq hp hq o ho hdyn hoq
  have hpn : p < g.pair_count := hinv.colored_in_range p c hp
  have hqn : q < g.pair_count := hinv.colored_in_range q c hq
  have hmem : q ∈ g.neighbors p := (hadj p hpn q hqn).mpr ⟨o, ho, hdyn, hoq⟩
  exact hinv.proper p q c hpq hmem hp hq

/-- A three-pair component: pair 0 joins particles 0 and 1, while pairs 1
and 2 join particle 0 resp. particle 1 with the shared static body 0.
Each pair's neighbor list concatenates the slices of its dynamic
endpoints; the static body owns no slice, so pairs 1 and 2 are not
neighbors of one another. -/
def c1_instance : Coloring_instance :=
  { pair_count := 3,
    objects := fun p =>
      match p with
      | 0 => [Obj.particle 0, Obj.particle 1]
      | 1 => [Obj.particle 0, Obj.static_body 0]
      | 2 => [Obj.particle 1, Obj.static_body 0]
      | _ => [],
    neighbors := fun p =>
      match p with
      | 0 => [0, 1] ++ [0, 2]
      | 1 => [0, 1]
      | 2 => [0, 2]
      | _ => [] }

/-- C1 counterexample: running the coloring pass on c1_instance assigns
color 1 to both pair 1 and pair 2, which are distinct and share static
body 0 - so same-colored pairs do not have disjoint object sets once
static bodies are counted, refuting the claim as stated. -/
theorem c1_same_color_pairs_can_share_static_body :
    (color_run c1_instance 3 (color_init 0)).map
        (fun s => (s.colors 1, s.colors 2)) =
      some (Pair_color.colored 1, Pair_color.colored 1) ∧
    (1 : ℕ) ≠ 2 ∧
    Obj.static_body 0 ∈ c1_instance.objects 1 ∧
    Obj.static_body 0 ∈ c1_instance.objects 2 :=
  ⟨by decide, by decide, by decide, by decide⟩

/-- Witness for the C1 theorem on c1_instance: its coloring run succeeds,
and the two pairs colored 1 share no dynamic object. -/
theorem c1_same_color_dynamic_disjoint_witness :
    (color_run c1_instance 3 (color_init 0)).isSome = true ∧
      ∀ s, color_run c1_instance 3 (color_init 0) = some s →
        ∀ o ∈ c1_instance.objects 1, o.isDynamic = true →
          o ∉ c1_instance.objects 2 := by
  refine ⟨by decide, ?_⟩
  intro s hs
  have h1 : s.colors 1 = .colored 1 := by
    have hmap : (color_run c1_instance 3 (color_init 0)).map (fun t => t.colors 1) =
        some (Pair_color.colored 1) := by decide
    rw [hs] at hmap
    exact Option.some.inj hmap
  have h2 : s.colors 2 = .colored 1 := by
    have hmap : (color_run c1_instance 3 (color_init 0)).map (fun t => t.colors 2) =
        some (Pair_color.colored 1) := by decide
    rw [hs] at hmap
    exact Option.some.inj hmap
  exact c1_same_color_pairs_share_no_dynamic_object c1_instance
    (by unfold neighbors_wf; decide) (by unfold neighbors_closed; decide)
    0 3 (by decide) s hs 1 2 1 (by decide) h1 h2

/-! ## Downward-closed color use and dispatch coverage (C9) -/

/-- Number of pairs of the group holding numeric color c in state s: the
histogram Color_group_storage accumulates through count() as colors are
assigned (world.cpp lines 530-532, 2161-2164). -/
def color_count (g : Coloring_instance) (s : Coloring_state) (c : ℕ) : ℕ :=
  ((List.range g.pair_count).filter
    (fun p => s.colors p = Pair_color.colored c)).length

/-- Embeds the shape of the solve-dispatch loops (world.cpp lines
2253-2272 and 2311-2330) and of Color_group_storage::reserve (lines
534-544): walk color buckets upward, visiting each non-empty bucket and
breaking forever at the first empty one. -/
def dispatch_loop (counts : ℕ → ℕ) : ℕ → ℕ → List ℕ
  | _, 0 => []
  | start, remaining + 1 =>
      if counts start = 0 then []
      else start :: dispatch_loop counts (start + 1) remaining

/-- The colors the solve-dispatch loops visit, walking from color 0
through the max_colors buckets. -/
def dispatch_visited (counts : ℕ → ℕ) : List ℕ := dispatch_loop counts 0 max_colors

theorem mem_dispatch_loop (counts : ℕ → ℕ) :
    ∀ remaining start c, start ≤ c → c < start + remaining →
      (∀ d, start ≤ d → d ≤ c → counts d ≠ 0) →
      c ∈ dispatch_loop counts start remaining := by
  intro remaining
  induction remaining with
  | zero => intro start c h1 h2 _; omega
  | succ n ih =>
      intro start c h1 h2 hall
      unfold dispatch_loop
      rw [if_neg (hall start (le_refl _) h1)]
      rcases Nat.eq_or_lt_of_le h1 with rfl | h3
      · exact List.mem_cons_self _ _
      · exact List.mem_cons_of_mem _
          (ih (start + 1) c h3 (by omega) (fun d hd1 hd2 => hall d (by omega) hd2))

theorem color_count_pos_iff (g : Coloring_instance) (s : Coloring_state) (c : ℕ) :
    color_count g s c ≠ 0 ↔
      ∃ p, p < g.pair_count ∧ s.colors p = .colored c := by
  unfold color_count
  rw [Ne, List.length_eq_zero]
  constructor
  · intro h
    obtain ⟨p, hp⟩ := List.exists_mem_of_ne_nil _ h
    have hmem := List.mem_filter.mp hp
    refine ⟨p, List.mem_range.mp hmem.1, ?_⟩
    simpa using hmem.2
  · rintro ⟨p, hp1, hp2⟩ h
    have hmem : p ∈ (List.range g.pair_count).filter
        (fun p => s.colors p = Pair_color.colored c) :=
      List.mem_filter.mpr ⟨List.mem_range.mpr hp1, by simp [hp2]⟩
    rw [h] at hmem
    cases hmem

/-- C9: after a coloring run completes, the numeric colors in use are
downward closed - any pair colored c has, for every d < c, some pair
of the group colored d - and consequently every color with a non-empty
bucket is visited by the dispatch loops that break at the first empty
bucket. -/
theorem c9_used_colors_downward_closed (g : Coloring_instance)
    (hadj : neighbors_wf g) (hcl : neighbors_closed g) (seed fuel : ℕ)
    (hseed : seed < g.pair_count) (s : Coloring_state)
    (hrun : color_run g fuel (color_init seed) = some s) :
    (∀ p c, s.colors p = .colored c → ∀ d, d < c →
      ∃ q, q < g.pair_count ∧ s.colors q = .colored d) ∧
    ∀ c, c < max_colors → color_count g s c ≠ 0 →
      c ∈ dispatch_visited (color_count g s) := by
  have hinv := color_run_preserves_inv g hadj hcl fuel (color_init seed) s
    (color_init_inv g seed hseed) hrun
  refine ⟨fun p c hp => hinv.downward p c hp, ?_⟩
  intro c hc hne
  unfold dispatch_visited
  refine mem_dispatch_loop (color_count g s) max_colors 0 c (Nat.zero_le c)
    (by omega) ?_
  intro d _ hdc
  rcases Nat.eq_or_lt_of_le hdc with rfl | hdlt
  · exact hne
  · obtain ⟨p, _, hp⟩ := (color_count_pos_iff g s c).mp hne
    obtain ⟨q, hq1, hq2⟩ := hinv.downward p c hp d hdlt
    exact (color_count_pos_iff g s d).mpr ⟨q, hq1, hq2⟩

/-- Witness for C9 on c1_instance: the run succeeds and color 1, whose
bucket is non-empty, is visited by the dispatch loop. -/
theorem c9_used_colors_downward_closed_witness :
    (color_run c1_instance 3 (color_init 0)).isSome = true ∧
      ∀ s, color_run c1_instance 3 (color_init 0) = some s →
        1 ∈ dispatch_visited (color_count c1_instance s) := by
  refine ⟨by decide, ?_⟩
  intro s hs
  have h1 : s.colors 1 = .colored 1 := by
    have hmap : (color_run c1_instance 3 (color_init 0)).map (fun t => t.colors 1) =
        some (Pair_color.colored 1) := by decide
    rw [hs] at hmap
    exact Option.some.inj hmap
  have h := c9_used_colors_downward_closed c1_instance
    (by unfold neighbors_wf; decide) (by unfold neighbors_closed; decide)
    0 3 (by decide) s hs
  exact h.2 1 (by decide) ((color_count_pos_iff c1_instance s 1).mpr
    ⟨1, by decide, h1⟩)

/-! ## World model for sleeping and the substep loop
(src/physics/world.cpp: create at lines 1529-1548 and 1567-1590,
update_neighbor_group_awake_states at lines 2015-2109, the simulate driver
at lines 1634-1699, integrate at lines 2212-2248 and derive_velocities at
lines 2292-2306).

Slots model the arenas; a group is the object list of one neighbor group
(connected component).  The contact solver's writes are abstracted as one
net per-substep correction parameter per object: the kernels write only
positions/orientations (position solve) and velocities/angular velocities
(velocity solve) of colored-pair endpoints, and every colored pair of the
frame has its dynamic endpoints inside the active groups. -/

/-- Integration/sleeping constants (world.cpp lines 1417-1422). -/
def waking_motion_epsilon : ℚ := 1 / 256

def waking_motion_initializer : ℚ := 2 * waking_motion_epsilon

def waking_motion_limit : ℚ := 8 * waking_motion_epsilon

/-- The Particle_data fields the sleeping system and substep loop touch. -/
structure P_state where
  previous_position : Vec3
  position : Vec3
  velocity : Vec3
  waking_motion : ℚ
  awake : Bool
deriving DecidableEq, Repr

/-- The Rigid_body_data fields the sleeping system and substep loop touch. -/
structure R_state where
  previous_position : Vec3
  position : Vec3
  velocity : Vec3
  previous_orientation : Quat
  orientation : Quat
  angular_velocity : Vec3
  waking_motion : ℚ
  awake : Bool
deriving DecidableEq, Repr

/-- The world's dynamic-object arenas: a fixed number of slots per class,
each empty or live. -/
structure World_state where
  particles : List (Option P_state)
  rigid_bodies : List (Option R_state)
deriving DecidableEq, Repr

/-- A handle to a dynamic object, as stored in a neighbor group's object
list. -/
inductive Dyn where
  | particle (index : ℕ)
  | rigid_body (index : ℕ)
deriving DecidableEq, Repr

/-- Read slot i (none beyond the arena or when the slot is empty). -/
def get_slot {α : Type} : List (Option α) → ℕ → Option α
  | [], _ => none
  | x :: _, 0 => x
  | _ :: xs, i + 1 => get_slot xs i

/-- Mutate the object in slot i in place, as the source does through
storage.data(handle). -/
def modify_slot {α : Type} (f : α → α) : List (Option α) → ℕ → List (Option α)
  | [], _ => []
  | x :: xs, 0 => x.map f :: xs
  | x :: xs, i + 1 => x :: modify_slot f xs i

/-- Overwrite slot i outright (placement-construction on create, clearing
on destroy). -/
def write_slot {α : Type} (v : Option α) : List (Option α) → ℕ → List (Option α)
  | [], _ => []
  | _ :: xs, 0 => v :: xs
  | x :: xs, i + 1 => x :: write_slot v xs i

def set_p (w : World_state) (i : ℕ) (f : P_state → P_state) : World_state :=
  { w with particles := modify_slot f w.particles i }

def set_r (w : World_state) (i : ℕ) (f : R_state → R_state) : World_state :=
  { w with rigid_bodies := modify_slot f w.rigid_bodies i }

/-- Whether the object behind a dynamic handle is awake (an empty slot
counts as not awake; the source never puts destroyed objects in groups). -/
def dyn_awake (w : World_state) : Dyn → Bool
  | .particle i => ((get_slot w.particles i).map P_state.awake).getD false
  | .rigid_body i => ((get_slot w.rigid_bodies i).map R_state.awake).getD false

/-- The accumulator of the scan loop at world.cpp lines 2017-2052. -/
structure Awake_scan where
  contains_awake : Bool
  contains_sleeping : Bool
  sleepable : Bool
deriving DecidableEq, Repr

/-- One step of the scan: an awake member sets contains_awake and, if its
waking motion exceeds the epsilon, clears sleepable; a sleeping member
sets contains_sleeping.  (The source's early exit once all three flags are
settled cannot change the result, because each flag is monotone, so the
full fold is embedded.) -/
def awake_scan_step (w : World_state) (acc : Awake_scan) (hd : Dyn) : Awake_scan :=
  let check := fun (awake : Bool) (waking_motion : ℚ) =>
    if awake then
      { acc with
        contains_awake := true,
        sleepable :=
          if waking_motion > waking_motion_epsilon then false else acc.sleepable }
    else
      { acc with contains_sleeping := true }
  match hd with
  | .particle i =>
      match get_slot w.particles i with
      | none => acc
      | some d => check d.awake d.waking_motion
  | .rigid_body i =>
      match get_slot w.rigid_bodies i with
      | none => acc
      | some d => check d.awake d.waking_motion

def scan_group (w : World_state) (group : List Dyn) : Awake_scan :=
  group.foldl (awake_scan_step w) ⟨false, false, true⟩

/-- The sleep write at world.cpp lines 2055-2077: an awake member's
velocity (and angular velocity) is zeroed and its awake flag cleared. -/
def sleep_member (w : World_state) (hd : Dyn) : World_state :=
  match hd with
  | .particle i =>
      set_p w i fun d =>
        if d.awake then { d with velocity := Vec3.zero, awake := false } else d
  | .rigid_body i =>
      set_r w i fun d =>
        if d.awake then
          { d with
              velocity := Vec3.zero
              angular_velocity := Vec3.zero
              awake := false }
        else d

/-- The wake write at world.cpp lines 2081-2102: a sleeping member's
waking motion is reinitialized and its awake flag set. -/
def wake_member (w : World_state) (hd : Dyn) : World_state :=
  match hd with
  | .particle i =>
      set_p w i fun d =>
        if !d.awake then
          { d with waking_motion := waking_motion_initializer, awake := true }
        else d
  | .rigid_body i =>
      set_r w i fun d =>
        if !d.awake then
          { d with waking_motion := waking_motion_initializer, awake := true }
        else d

/-- Embeds update_neighbor_group_awake_states (world.cpp lines 2015-2109):
scan the group, then sleep it (returning false), skip it (false), or wake
any sleeping members and report it active (true). -/
def update_group_awake_states (w : World_state) (group : List Dyn) :
    World_state × Bool :=
  let scan := scan_group w group
  if scan.contains_awake then
    if scan.sleepable then
      (group.foldl sleep_member w, false)
    else
      if scan.contains_sleeping then (group.foldl wake_member w, true)
      else (w, true)
  else (w, false)

/-- The group loop of simulate (world.cpp lines 1642-1647): update every
group's awake state in index order and collect the active ones. -/
def update_all_groups (w : World_state) : List (List Dyn) →
    World_state × List (List Dyn)
  | [] => (w, [])
  | g :: gs =>
      let r := update_group_awake_states w g
      let rest := update_all_groups r.1 gs
      (rest.1, if r.2 then g :: rest.2 else rest.2)

/-- Normalization of a quaternion, q / |q|, with |q| through the
square-root oracle (math::normalize of the absent vec.h, applied after
every orientation integration and positional update). -/
def normalize_quat (sqrtQ : ℚ → ℚ) (q : Quat) : Quat :=
  let n := sqrtQ (q.w * q.w + Vec3.length2 q.v)
  ⟨q.w / n, q.v / n⟩

/-- Embeds integrate for a particle (world.cpp lines 2212-2225): gravity,
damping, position advance and the waking-motion EMA clamped at the
limit. -/
def integrate_p (gravity : Vec3) (delta_time damping smoothing : ℚ)
    (d : P_state) : P_state :=
  let v := (d.velocity + delta_time * gravity) * damping
  { previous_position := d.position,
    position := d.position + delta_time * v,
    velocity := v,
    waking_motion :=
      min ((1 - smoothing) * d.waking_motion + smoothing * Vec3.length2 v)
        waking_motion_limit,
    awake := d.awake }

/-- Embeds integrate for a rigid body (world.cpp lines 2227-2248):
additionally damps the angular velocity, integrates the orientation by the
quaternion derivative and renormalizes, and feeds both speeds into the
EMA. -/
def integrate_r (sqrtQ : ℚ → ℚ) (gravity : Vec3)
    (delta_time damping smoothing : ℚ) (d : R_state) : R_state :=
  let v := (d.velocity + delta_time * gravity) * damping
  let av := d.angular_velocity * damping
  { previous_position := d.position,
    position := d.position + delta_time * v,
    velocity := v,
    previous_orientation := d.orientation,
    orientation :=
      normalize_quat sqrtQ
        (d.orientation + Quat.mk 0 ((1 / 2 * delta_time) * av) * d.orientation),
    angular_velocity := av,
    waking_motion :=
      min ((1 - smoothing) * d.waking_motion +
          smoothing * (Vec3.length2 v + Vec3.length2 av))
        waking_motion_limit,
    awake := d.awake }

/-- Embeds derive_velocity for a particle (world.cpp lines 2292-2296). -/
def derive_p (inverse_delta_time : ℚ) (d : P_state) : P_state :=
  { d with velocity := (d.position - d.previous_position) * inverse_delta_time }

/-- Embeds derive_velocity for a rigid body (world.cpp lines 2298-2306):
angular velocity from the quaternion difference, short arc taken by sign
flip when the difference's scalar part is negative. -/
def derive_r (inverse_delta_time : ℚ) (d : R_state) : R_state :=
  let delta_orientation := d.orientation * Quat.conjugate d.previous_orientation
  let av0 := (2 * inverse_delta_time) * delta_orientation.v
  { d with
      velocity := (d.position - d.previous_position) * inverse_delta_time
      angular_velocity := if delta_orientation.w ≥ 0 then av0 else -av0 }

/-- Applies one per-object state update to every member of every active
group, in order - the shape shared by integrate, the position-solve
writes, derive_velocities and the velocity-solve writes, all of which
iterate over exactly the active groups' objects (directly, or through the
colored pairs whose endpoints are those objects). -/
def apply_phase (fp : ℕ → P_state → P_state) (fr : ℕ → R_state → R_state)
    (w : World_state) (active : List (List Dyn)) : World_state :=
  active.foldl
    (fun w g =>
      g.foldl
        (fun w hd =>
          match hd with
          | .particle i => set_p w i (fp i)
          | .rigid_body i => set_r w i (fr i))
        w)
    w

/-- The net contact-solver corrections of one substep, one per potential
object: the position solve adds a position delta and rewrites the
orientation (through the quaternion update and renormalization); the
velocity solve adds impulse-induced velocity and angular velocity
deltas. -/
structure Substep_corrections where
  delta_position_p : ℕ → Vec3
  delta_position_r : ℕ → Vec3
  new_orientation_r : ℕ → Quat
  delta_velocity_p : ℕ → Vec3
  delta_velocity_r : ℕ → Vec3
  delta_angular_velocity_r : ℕ → Vec3

/-- One substep of the loop at world.cpp lines 1689-1696: integrate, solve
positions, derive velocities, solve velocities - each phase touching only
the active groups' objects. -/
def substep (sqrtQ : ℚ → ℚ) (gravity : Vec3)
    (delta_time inverse_delta_time damping smoothing : ℚ)
    (c : Substep_corrections) (active : List (List Dyn))
    (w : World_state) : World_state :=
  let w1 := apply_phase (fun _ => integrate_p gravity delta_time damping smoothing)
    (fun _ => integrate_r sqrtQ gravity delta_time damping smoothing) w active
  let w2 := apply_phase
    (fun i d => { d with position := d.position + c.delta_position_p i })
    (fun i d => { d with
        position := d.position + c.delta_position_r i
        orientation := c.new_orientation_r i })
    w1 active
  let w3 := apply_phase (fun _ => derive_p inverse_delta_time)
    (fun _ => derive_r inverse_delta_time) w2 active
  apply_phase
    (fun i d => { d with velocity := d.velocity + c.delta_velocity_p i })
    (fun i d => { d with
        velocity := d.velocity + c.delta_velocity_r i
        angular_velocity := d.angular_velocity + c.delta_angular_velocity_r i })
    w3 active

/-- Embeds the simulate driver (world.cpp lines 1634-1699) over the frame's
neighbor groups: update every group's awake state collecting the active
ones, then run one substep per entry of the corrections list
(substep_count = corrections.length, h = delta_time / substep_count,
h_inv = 1/h); damping and smoothing are the per-substep compensated
factors 0.99^h and 1 - (1/8)^h the source computes at lines 1685-1688. -/
def simulate (sqrtQ : ℚ → ℚ) (gravity : Vec3) (delta_time : ℚ)
    (corrections : List Substep_corrections) (damping smoothing : ℚ)
    (groups : List (List Dyn)) (w : World_state) : World_state :=
  let r := update_all_groups w groups
  let h := delta_time / corrections.length
  let h_inv := 1 / h
  corrections.foldl
    (fun w c => substep sqrtQ gravity h h_inv damping smoothing c r.2 w) r.1

/-- Embeds particle creation (world.cpp lines 1529-1548): the fresh slot
starts with previous_position = position, the given velocity, the waking
motion initializer 2 epsilon, and awake = true. -/
def create_particle (w : World_state) (i : ℕ) (position velocity : Vec3) :
    World_state :=
  { w with
      particles := write_slot
        (some { previous_position := position, position := position,
                velocity := velocity,
                waking_motion := waking_motion_initializer, awake := true })
        w.particles i }

/-- Embeds rigid body creation (world.cpp lines 1567-1590): fresh slot,
awake, waking motion initializer. -/
def create_rigid_body (w : World_state) (i : ℕ) (position velocity : Vec3)
    (orientation : Quat) (angular_velocity : Vec3) : World_state :=
  { w with
      rigid_bodies := write_slot
        (some { previous_position := position, position := position,
                velocity := velocity, previous_orientation := orientation,
                orientation := orientation,
                angular_velocity := angular_velocity,
                waking_motion := waking_motion_initializer, awake := true })
        w.rigid_bodies i }

def destroy_particle (w : World_state) (i : ℕ) : World_state :=
  { w with particles := write_slot none w.particles i }

def destroy_rigid_body (w : World_state) (i : ℕ) : World_state :=
  { w with rigid_bodies := write_slot none w.rigid_bodies i }

/-- A world with the given arena capacities and no live objects. -/
def World_state.init (particle_capacity rigid_body_capacity : ℕ) : World_state :=
  { particles := List.replicate particle_capacity none,
    rigid_bodies := List.replicate rigid_body_capacity none }

/-- Neighbor groups are connected components of the dynamic pair graph, so
distinct groups share no object. -/
def groups_disjoint (groups : List (List Dyn)) : Prop :=
  groups.Pairwise fun g1 g2 => ∀ hd ∈ g1, hd ∉ g2

/-- The world states reachable by any sequence of create, destroy and
simulate calls (simulate takes the frame's broadphase outcome - the
disjoint neighbor groups - and the solver's net corrections as
parameters). -/
inductive Reachable : World_state → Prop where
  | init (particle_capacity rigid_body_capacity : ℕ) :
      Reachable (World_state.init particle_capacity rigid_body_capacity)
  | create_particle {w : World_state} (h : Reachable w) (i : ℕ)
      (position velocity : Vec3) :
      Reachable (create_particle w i position velocity)
  | create_rigid_body {w : World_state} (h : Reachable w) (i : ℕ)
      (position velocity : Vec3) (orientation : Quat)
      (angular_velocity : Vec3) :
      Reachable (create_rigid_body w i position velocity orientation
        angular_velocity)
  | destroy_particle {w : World_state} (h : Reachable w) (i : ℕ) :
      Reachable (destroy_particle w i)
  | destroy_rigid_body {w : World_state} (h : Reachable w) (i : ℕ) :
      Reachable (destroy_rigid_body w i)
  | simulate {w : World_state} (h : Reachable w) (sqrtQ : ℚ → ℚ)
      (gravity : Vec3) (delta_time : ℚ)
      (corrections : List Substep_corrections) (damping smoothing : ℚ)
      (groups : List (List Dyn)) (hg : groups_disjoint groups) :
      Reachable (simulate sqrtQ gravity delta_time corrections damping
        smoothing groups w)

theorem get_modify_slot {α : Type} (f : α → α) :
    ∀ (l : List (Option α)) (i j : ℕ),
      get_slot (modify_slot f l i) j =
        if j = i then (get_slot l j).map f else get_slot l j := by
  intro l
  induction l with
  | nil =>
      intro i j
      simp only [modify_slot, get_slot]
      split <;> rfl
  | cons x xs ih =>
      intro i j
      cases i with
      | zero =>
          cases j with
          | zero => simp [modify_slot, get_slot]
          | succ j => simp [modify_slot, get_slot]
      | succ i =>
          cases j with
          | zero => simp [modify_slot, get_slot]
          | succ j => simpa [modify_slot, get_slot, Nat.succ_inj] using ih i j

theorem get_write_slot {α : Type} (v : Option α) :
    ∀ (l : List (Option α)) (i j : ℕ),
      get_slot (write_slot v l i) j =
        if j = i ∧ i < l.length then v else get_slot l j := by
  intro l
  induction l with
  | nil =>
      intro i j
      simp only [write_slot, get_slot, List.length_nil]
      split
      · omega
      · rfl
  | cons x xs ih =>
      intro i j
      cases i with
      | zero =>
          cases j with
          | zero => simp [write_slot, get_slot]
          | succ j => simp [write_slot, get_slot]
      | succ i =>
          cases j with
          | zero => simp [write_slot, get_slot]
          | succ j =>
              simp only [write_slot, get_slot, ih i j, List.length_cons]
              by_cases h : j = i ∧ i < xs.length
              · rw [if_pos h, if_pos ⟨by omega, by omega⟩]
              · rw [if_neg h, if_neg (by omega)]

theorem get_slot_replicate_none {α : Type} :
    ∀ (n i : ℕ), get_slot (List.replicate n (none : Option α)) i = none := by
  intro n
  induction n with
  | zero => intro i; cases i <;> rfl
  | succ n ih =>
      intro i
      cases i with
      | zero => rfl
      | succ i => simpa [List.replicate, get_slot] using ih i

/-- The sleeping invariant of claim C4: a particle or rigid body whose
awake flag is cleared has exactly zero velocity (and zero angular velocity
for rigid bodies). -/
def Sleep_inv (w : World_state) : Prop :=
  (∀ i p, get_slot w.particles i = some p → p.awake = false →
    p.velocity = Vec3.zero) ∧
  ∀ i r, get_slot w.rigid_bodies i = some r → r.awake = false →
    r.velocity = Vec3.zero ∧ r.angular_velocity = Vec3.zero

/-- The object behind the handle, when live, is awake. -/
def awake_or_dead (w : World_state) : Dyn → Prop
  | .particle i => ∀ d, get_slot w.particles i = some d → d.awake = true
  | .rigid_body i => ∀ d, get_slot w.rigid_bodies i = some d → d.awake = true

/-- The object behind the handle, when live, is asleep with zero
velocities - the post-state of a sleep transition. -/
def asleep_zero (w : World_state) : Dyn → Prop
  | .particle i => ∀ d, get_slot w.particles i = some d →
      d.awake = false ∧ d.velocity = Vec3.zero
  | .rigid_body i => ∀ d, get_slot w.rigid_bodies i = some d →
      d.awake = false ∧ d.velocity = Vec3.zero ∧ d.angular_velocity = Vec3.zero

theorem sleep_member_preserves_inv (w : World_state) (hd : Dyn)
    (hinv : Sleep_inv w) : Sleep_inv (sleep_member w hd) := by
  obtain ⟨hp, hr⟩ := hinv
  cases hd with
  | particle i =>
      refine ⟨?_, hr⟩
      intro j p hget hawake
      rw [show (sleep_member w (.particle i)).particles =
        modify_slot _ w.particles i from rfl, get_modify_slot] at hget
      by_cases hj : j = i
      · rw [if_pos hj] at hget
        cases hold : get_slot w.particles j with
        | none => rw [hold] at hget; cases hget
        | some d =>
            rw [hold] at hget
            obtain rfl := Option.some.inj hget
            by_cases hdw : d.awake
            · simp [hdw]
            · simp only [hdw, if_false]
              exact hp j d hold (by simpa using hdw)
      · rw [if_neg hj] at hget
        exact hp j p hget hawake
  | rigid_body i =>
      refine ⟨hp, ?_⟩
      intro j r hget hawake
      rw [show (sleep_member w (.rigid_body i)).rigid_bodies =
        modify_slot _ w.rigid_bodies i from rfl, get_modify_slot] at hget
      by_cases hj : j = i
      · rw [if_pos hj] at hget
        cases hold : get_slot w.rigid_bodies j with
        | none => rw [hold] at hget; cases hget
        | some d =>
            rw [hold] at hget
            obtain rfl := Option.some.inj hget
            by_cases hdw : d.awake
            · simp [hdw]
            · simp only [hdw, if_false]
              exact hr j d hold (by simpa using hdw)
      · rw [if_neg hj] at hget
        exact hr j r hget hawake

theorem wake_member_preserves_inv (w : World_state) (hd : Dyn)
    (hinv : Sleep_inv w) : Sleep_inv (wake_member w hd) := by
  obtain ⟨hp, hr⟩ := hinv
  cases hd with
  | particle i =>
      refine ⟨?_, hr⟩
      intro j p hget hawake
      rw [show (wake_member w (.particle i)).particles =
        modify_slot _ w.particles i from rfl, get_modify_slot] at hget
      by_cases hj : j = i
      · rw [if_pos hj] at hget
        cases hold : get_slot w.particles j with
        | none => rw [hold] at hget; cases hget
        | some d =>
            rw [hold] at hget
            obtain rfl := Option.some.inj hget
            by_cases hdw : d.awake
            · simp only [hdw, Bool.not_true, if_false] at hawake ⊢
              exact hp j d hold hawake
            · simp [hdw] at hawake
      · rw [if_neg hj] at hget
        exact hp j p hget hawake
  | rigid_body i =>
      refine ⟨hp, ?_⟩
      intro j r hget hawake
      rw [show (wake_member w (.rigid_body i)).rigid_bodies =
        modify_slot _ w.rigid_bodies i from rfl, get_modify_slot] at hget
      by_cases hj : j = i
      · rw [if_pos hj] at hget
        cases hold : get_slot w.rigid_bodies j with
        | none => rw [hold] at hget; cases hget
        | some d =>
            rw [hold] at hget
            obtain rfl := Option.some.inj hget
            by_cases hdw : d.awake
            · simp only [hdw, Bool.not_true, if_false] at hawake ⊢
              exact hr j d hold hawake
            · simp [hdw] at hawake
      · rw [if_neg hj] at hget
        exact hr j r hget hawake

theorem foldl_preserves {α : Type} (P : World_state → Prop)
    (f : World_state → α → World_state)
    (hf : ∀ w a, P w → P (f w a)) :
    ∀ (l : List α) (w : World_state), P w → P (l.foldl f w) := by
  intro l
  induction l with
  | nil => intro w h; exact h
  | cons a l ih => intro w h; exact ih (f w a) (hf w a h)

theorem update_group_preserves_inv (w : World_state) (g : List Dyn)
    (hinv : Sleep_inv w) : Sleep_inv (update_group_awake_states w g).1 := by
  simp only [update_group_awake_states]
  split
  · split
    · exact foldl_preserves Sleep_inv sleep_member sleep_member_preserves_inv g w hinv
    · split
      · exact foldl_preserves Sleep_inv wake_member wake_member_preserves_inv g w hinv
      · exact hinv
  · exact hinv

theorem foldl_preserves_mem {α : Type} (P : World_state → Prop)
    (f : World_state → α → World_state) :
    ∀ (l : List α), (∀ w a, a ∈ l → P w → P (f w a)) →
      ∀ w, P w → P (l.foldl f w) := by
  intro l
  induction l with
  | nil => intro _ w h; exact h
  | cons a l ih =>
      intro hstep w h
      exact ih (fun w b hb => hstep w b (List.mem_cons_of_mem a hb)) (f w a)
        (hstep w a (List.mem_cons_self a l) h)

theorem awake_scan_step_sleeping_mono (w : World_state) (acc : Awake_scan)
    (hd : Dyn) (h : acc.contains_sleeping = true) :
    (awake_scan_step w acc hd).contains_sleeping = true := by
  cases hd with
  | particle i =>
      simp only [awake_scan_step]
      cases get_slot w.particles i with
      | none => exact h
      | some d =>
          by_cases hdw : d.awake = true
          · simp [hdw, h]
          · simp [hdw]
  | rigid_body i =>
      simp only [awake_scan_step]
      cases get_slot w.rigid_bodies i with
      | none => exact h
      | some d =>
          by_cases hdw : d.awake = true
          · simp [hdw, h]
          · simp [hdw]

theorem scan_fold_sleeping_mono (w : World_state) :
    ∀ (g : List Dyn) (acc : Awake_scan), acc.contains_sleeping = true →
      (g.foldl (awake_scan_step w) acc).contains_sleeping = true := by
  intro g
  induction g with
  | nil => intro acc h; exact h
  | cons hd g ih =>
      intro acc h
      exact ih (awake_scan_step w acc hd) (awake_scan_step_sleeping_mono w acc hd h)

theorem scan_fold_no_sleeping_all_awake (w : World_state) :
    ∀ (g : List Dyn) (acc : Awake_scan),
      (g.foldl (awake_scan_step w) acc).contains_sleeping = false →
      ∀ hd ∈ g, awake_or_dead w hd := by
  intro g
  induction g with
  | nil => intro acc _ hd hmem; cases hmem
  | cons h0 g ih =>
      intro acc hfold hd hmem
      rw [List.foldl_cons] at hfold
      rcases List.mem_cons.mp hmem with rfl | hmem2
      · cases hd with
        | particle i =>
            intro d hget
            by_cases hdw : d.awake = true
            · exact hdw
            · exfalso
              have hstep : (awake_scan_step w acc (.particle i)).contains_sleeping = true := by
                simp [awake_scan_step, hget, hdw]
              rw [scan_fold_sleeping_mono w g _ hstep] at hfold
              cases hfold
        | rigid_body i =>
            intro d hget
            by_cases hdw : d.awake = true
            · exact hdw
            · exfalso
              have hstep : (awake_scan_step w acc (.rigid_body i)).contains_sleeping = true := by
                simp [awake_scan_step, hget, hdw]
              rw [scan_fold_sleeping_mono w g _ hstep] at hfold
              cases hfold
      · exact ih (awake_scan_step w acc h0) hfold hd hmem2

theorem wake_member_awake_or_dead_self (w : World_state) (hd : Dyn) :
    awake_or_dead (wake_member w hd) hd := by
  cases hd with
  | particle i =>
      intro d hget
      rw [show (wake_member w (.particle i)).particles =
        modify_slot _ w.particles i from rfl, get_modify_slot, if_pos rfl] at hget
      cases hold : get_slot w.particles i with
      | none => rw [hold] at hget; cases hget
      | some e =>
          rw [hold] at hget
          obtain rfl := Option.some.inj hget
          by_cases hew : e.awake = true
          · simp [hew]
          · simp only [Bool.not_eq_true] at hew
            simp [hew]
  | rigid_body i =>
      intro d hget
      rw [show (wake_member w (.rigid_body i)).rigid_bodies =
        modify_slot _ w.rigid_bodies i from rfl, get_modify_slot, if_pos rfl] at hget
      cases hold : get_slot w.rigid_bodies i with
      | none => rw [hold] at hget; cases hget
      | some e =>
          rw [hold] at hget
          obtain rfl := Option.some.inj hget
          by_cases hew : e.awake = true
          · simp [hew]
          · simp only [Bool.not_eq_true] at hew
            simp [hew]

theorem wake_member_awake_or_dead_mono (w : World_state) (h2 hd : Dyn)
    (h : awake_or_dead w hd) : awake_or_dead (wake_member w h2) hd := by
  cases hd with
  | particle i =>
      cases h2 with
      | particle k =>
          intro d hget
          rw [show (wake_member w (.particle k)).particles =
            modify_slot _ w.particles k from rfl, get_modify_slot] at hget
          by_cases hik : i = k
          · rw [if_pos hik] at hget
            cases hold : get_slot w.particles i with
            | none => rw [hold] at hget; cases hget
            | some e =>
                rw [hold] at hget
                obtain rfl := Option.some.inj hget
                have he := h e hold
                simp [he]
          · rw [if_neg hik] at hget
            exact h d hget
      | rigid_body k => intro d hget; exact h d hget
  | rigid_body i =>
      cases h2 with
      | particle k => intro d hget; exact h d hget
      | rigid_body k =>
          intro d hget
          rw [show (wake_member w (.rigid_body k)).rigid_bodies =
            modify_slot _ w.rigid_bodies k from rfl, get_modify_slot] at hget
          by_cases hik : i = k
          · rw [if_pos hik] at hget
            cases hold : get_slot w.rigid_bodies i with
            | none => rw [hold] at hget; cases hget
            | some e =>
                rw [hold] at hget
                obtain rfl := Option.some.inj hget
                have he := h e hold
                simp [he]
          · rw [if_neg hik] at hget
            exact h d hget

theorem wake_fold_awake_or_dead (g : List Dyn) :
    ∀ (w : World_state), ∀ hd ∈ g, awake_or_dead (g.foldl wake_member w) hd := by
  induction g with
  | nil => intro w hd hmem; cases hmem
  | cons h0 g ih =>
      intro w hd hmem
      rw [List.foldl_cons]
      rcases List.mem_cons.mp hmem with rfl | hmem2
      · exact foldl_preserves (fun v => awake_or_dead v hd)
          wake_member (fun v a h => wake_member_awake_or_dead_mono v a hd h) g
          (wake_member w hd) (wake_member_awake_or_dead_self w hd)
      · exact ih (wake_member w h0) hd hmem2

theorem sleep_member_asleep_zero_self (w : World_state) (hd : Dyn)
    (hinv : Sleep_inv w) : asleep_zero (sleep_member w hd) hd := by
  obtain ⟨hp, hr⟩ := hinv
  cases hd with
  | particle i =>
      intro d hget
      rw [show (sleep_member w (.particle i)).particles =
        modify_slot _ w.particles i from rfl, get_modify_slot, if_pos rfl] at hget
      cases hold : get_slot w.particles i with
      | none => rw [hold] at hget; cases hget
      | some e =>
          rw [hold] at hget
          obtain rfl := Option.some.inj hget
          by_cases hew : e.awake = true
          · simp [hew]
          · simp only [Bool.not_eq_true] at hew
            simp only [hew, if_false]
            exact ⟨hew, hp i e hold hew⟩
  | rigid_body i =>
      intro d hget
      rw [show (sleep_member w (.rigid_body i)).rigid_bodies =
        modify_slot _ w.rigid_bodies i from rfl, get_modify_slot, if_pos rfl] at hget
      cases hold : get_slot w.rigid_bodies i with
      | none => rw [hold] at hget; cases hget
      | some e =>
          rw [hold] at hget
          obtain rfl := Option.some.inj hget
          by_cases hew : e.awake = true
          · simp [hew]
          · simp only [Bool.not_eq_true] at hew
            simp only [hew, if_false]
            exact ⟨hew, hr i e hold hew⟩

theorem sleep_member_asleep_zero_mono (w : World_state) (h2 hd : Dyn)
    (h : asleep_zero w hd) : asleep_zero (sleep_member w h2) hd := by
  cases hd with
  | particle i =>
      cases h2 with
      | particle k =>
          intro d hget
          rw [show (sleep_member w (.particle k)).particles =
            modify_slot _ w.particles k from rfl, get_modify_slot] at hget
          by_cases hik : i = k
          · rw [if_pos hik] at hget
            cases hold : get_slot w.particles i with
            | none => rw [hold] at hget; cases hget
            | some e =>
                rw [hold] at hget
                obtain rfl := Option.some.inj hget
                obtain ⟨he1, he2⟩ := h e hold
                simp [he1, he2]
          · rw [if_neg hik] at hget
            exact h d hget
      | rigid_body k => intro d hget; exact h d hget
  | rigid_body i =>
      cases h2 with
      | particle k => intro d hget; exact h d hget
      | rigid_body k =>
          intro d hget
          rw [show (sleep_member w (.rigid_body k)).rigid_bodies =
            modify_slot _ w.rigid_bodies k from rfl, get_modify_slot] at hget
          by_cases hik : i = k
          · rw [if_pos hik] at hget
            cases hold : get_slot w.rigid_bodies i with
            | none => rw [hold] at hget; cases hget
            | some e =>
                rw [hold] at hget
                obtain rfl := Option.some.inj hget
                obtain ⟨he1, he2, he3⟩ := h e hold
                simp [he1, he2, he3]
          · rw [if_neg hik] at hget
            exact h d hget

/-- A sleep transition puts every member of the group to sleep with zero
velocities (freshly slept members are zeroed by the write; members that
were already asleep were already at zero by the sleeping invariant). -/
theorem sleep_fold_asleep_zero (g : List Dyn) :
    ∀ (w : World_state), Sleep_inv w →
      ∀ hd ∈ g, asleep_zero (g.foldl sleep_member w) hd := by
  induction g with
  | nil => intro w _ hd hmem; cases hmem
  | cons h0 g ih =>
      intro w hinv hd hmem
      rw [List.foldl_cons]
      rcases List.mem_cons.mp hmem with rfl | hmem2
      · exact foldl_preserves (fun v => asleep_zero v hd) sleep_member
          (fun v a h => sleep_member_asleep_zero_mono v a hd h) g
          (sleep_member w hd) (sleep_member_asleep_zero_self w hd hinv)
      · exact ih (sleep_member w h0) (sleep_member_preserves_inv w h0 hinv) hd hmem2

theorem sleep_member_frame (w : World_state) (h2 hd : Dyn) (hne : hd ≠ h2)
    (h : awake_or_dead w hd) : awake_or_dead (sleep_member w h2) hd := by
  cases hd with
  | particle i =>
      cases h2 with
      | particle k =>
          have hik : i ≠ k := fun he => hne (by rw [he])
          intro d hget
          rw [show (sleep_member w (.particle k)).particles =
            modify_slot _ w.particles k from rfl, get_modify_slot,
            if_neg hik] at hget
          exact h d hget
      | rigid_body k => intro d hget; exact h d hget
  | rigid_body i =>
      cases h2 with
      | particle k => intro d hget; exact h d hget
      | rigid_body k =>
          have hik : i ≠ k := fun he => hne (by rw [he])
          intro d hget
          rw [show (sleep_member w (.rigid_body k)).rigid_bodies =
            modify_slot _ w.rigid_bodies k from rfl, get_modify_slot,
            if_neg hik] at hget
          exact h d hget

theorem update_group_frame (w : World_state) (g : List Dyn) (hd : Dyn)
    (hnot : hd ∉ g) (h : awake_or_dead w hd) :
    awake_or_dead (update_group_awake_states w g).1 hd := by
  simp only [update_group_awake_states]
  split
  · split
    · exact foldl_preserves_mem (fun v => awake_or_dead v hd) sleep_member g
        (fun v a ha hv =>
          sleep_member_frame v a hd (fun he => hnot (he ▸ ha)) hv) w h
    · split
      · exact foldl_preserves_mem (fun v => awake_or_dead v hd) wake_member g
          (fun v a _ hv => wake_member_awake_or_dead_mono v a hd hv) w h
      · exact h
  · exact h

theorem update_all_groups_frame (gs : List (List Dyn)) :
    ∀ (w : World_state) (hd : Dyn), (∀ g2 ∈ gs, hd ∉ g2) →
      awake_or_dead w hd → awake_or_dead (update_all_groups w gs).1 hd := by
  induction gs with
  | nil => intro w hd _ h; exact h
  | cons g gs ih =>
      intro w hd hnot h
      exact ih (update_group_awake_states w g).1 hd
        (fun g2 hg2 => hnot g2 (List.mem_cons_of_mem g hg2))
        (update_group_frame w g hd (hnot g (List.mem_cons_self g gs)) h)

theorem update_group_active_awake (w : World_state) (g : List Dyn)
    (h2 : (update_group_awake_states w g).2 = true) :
    ∀ hd ∈ g, awake_or_dead (update_group_awake_states w g).1 hd := by
  intro hd hmem
  simp only [update_group_awake_states] at h2 ⊢
  by_cases h1 : (scan_group w g).contains_awake = true
  · rw [if_pos h1] at h2 ⊢
    by_cases hs : (scan_group w g).sleepable = true
    · rw [if_pos hs] at h2
      cases h2
    · rw [if_neg hs] at h2 ⊢
      by_cases hcs : (scan_group w g).contains_sleeping = true
      · rw [if_pos hcs]
        exact wake_fold_awake_or_dead g w hd hmem
      · rw [if_neg hcs]
        simp only [Bool.not_eq_true] at hcs
        exact scan_fold_no_sleeping_all_awake w g ⟨false, false, true⟩ hcs hd hmem
  · rw [if_neg h1] at h2
    cases h2

theorem update_all_groups_spec :
    ∀ (groups : List (List Dyn)) (w : World_state), groups_disjoint groups →
      Sleep_inv w →
      Sleep_inv (update_all_groups w groups).1 ∧
        ∀ g ∈ (update_all_groups w groups).2, ∀ hd ∈ g,
          awake_or_dead (update_all_groups w groups).1 hd := by
  intro groups
  induction groups with
  | nil =>
      intro w _ hinv
      exact ⟨hinv, fun g hg => by cases hg⟩
  | cons g gs ih =>
      intro w hdisj hinv
      rw [groups_disjoint, List.pairwise_cons] at hdisj
      obtain ⟨hhead, htail⟩ := hdisj
      have hinv1 : Sleep_inv (update_group_awake_states w g).1 :=
        update_group_preserves_inv w g hinv
      obtain ⟨hinv2, hactive⟩ := ih (update_group_awake_states w g).1 htail hinv1
      refine ⟨hinv2, ?_⟩
      intro g2 hg2 hd hdmem
      have hmem2 : g2 ∈
          (if (update_group_awake_states w g).2 = true then
            g :: (update_all_groups (update_group_awake_states w g).1 gs).2
          else (update_all_groups (update_group_awake_states w g).1 gs).2) := hg2
      by_cases hr2 : (update_group_awake_states w g).2 = true
      · rw [if_pos hr2] at hmem2
        rcases List.mem_cons.mp hmem2 with rfl | hmem3
        · have hawake := update_group_active_awake w g2 hr2 hd hdmem
          exact update_all_groups_frame gs (update_group_awake_states w g2).1 hd
            (fun gg hgg => hhead gg hgg hd hdmem) hawake
        · exact hactive g2 hmem3 hd hdmem
      · rw [if_neg hr2] at hmem2
        exact hactive g2 hmem2 hd hdmem

/-- What holds throughout the substep loop: the sleeping invariant, plus
every member of every active group is awake (the substep phases never
write the awake flag, so this is stable). -/
def Phase_ok (active : List (List Dyn)) (w : World_state) : Prop :=
  Sleep_inv w ∧ ∀ g ∈ active, ∀ hd ∈ g, awake_or_dead w hd

theorem set_p_preserves_phase_ok (active : List (List Dyn)) (w : World_state)
    (i : ℕ) (f : P_state → P_state) (hf : ∀ d, (f d).awake = d.awake)
    (hmem : ∃ g ∈ active, Dyn.particle i ∈ g) (hQ : Phase_ok active w) :
    Phase_ok active (set_p w i f) := by
  obtain ⟨⟨hp, hr⟩, hawake⟩ := hQ
  obtain ⟨g0, hg0, hin⟩ := hmem
  have hself : awake_or_dead w (.particle i) := hawake g0 hg0 _ hin
  constructor
  · refine ⟨?_, hr⟩
    intro j p hget hpawake
    rw [show (set_p w i f).particles = modify_slot f w.particles i from rfl,
      get_modify_slot] at hget
    by_cases hj : j = i
    · rw [if_pos hj] at hget
      cases hold : get_slot w.particles j with
      | none => rw [hold] at hget; cases hget
      | some e =>
          rw [hold] at hget
          obtain rfl := Option.some.inj hget
          rw [hf e, hself e (hj ▸ hold)] at hpawake
          cases hpawake
    · rw [if_neg hj] at hget
      exact hp j p hget hpawake
  · intro g hg hd hdmem
    have hbase := hawake g hg hd hdmem
    cases hd with
    | particle j =>
        intro d hget
        rw [show (set_p w i f).particles = modify_slot f w.particles i from rfl,
          get_modify_slot] at hget
        by_cases hj : j = i
        · rw [if_pos hj] at hget
          cases hold : get_slot w.particles j with
          | none => rw [hold] at hget; cases hget
          | some e =>
              rw [hold] at hget
              obtain rfl := Option.some.inj hget
              rw [hf e]
              exact hbase e hold
        · rw [if_neg hj] at hget
          exact hbase d hget
    | rigid_body j => intro d hget; exact hbase d hget

theorem set_r_preserves_phase_ok (active : List (List Dyn)) (w : World_state)
    (i : ℕ) (f : R_state → R_state)
    (hf_awake : ∀ d, (f d).awake = d.awake)
    (hmem : ∃ g ∈ active, Dyn.rigid_body i ∈ g) (hQ : Phase_ok active w) :
    Phase_ok active (set_r w i f) := by
  obtain ⟨⟨hp, hr⟩, hawake⟩ := hQ
  obtain ⟨g0, hg0, hin⟩ := hmem
  have hself : awake_or_dead w (.rigid_body i) := hawake g0 hg0 _ hin
  constructor
  · refine ⟨hp, ?_⟩
    intro j p hget hpawake
    rw [show (set_r w i f).rigid_bodies = modify_slot f w.rigid_bodies i from rfl,
      get_modify_slot] at hget
    by_cases hj : j = i
    · rw [if_pos hj] at hget
      cases hold : get_slot w.rigid_bodies j with
      | none => rw [hold] at hget; cases hget
      | some e =>
          rw [hold] at hget
          obtain rfl := Option.some.inj hget
          rw [hf_awake e, hself e (hj ▸ hold)] at hpawake
          cases hpawake
    · rw [if_neg hj] at hget
      exact hr j p hget hpawake
  · intro g hg hd hdmem
    have hbase := hawake g hg hd hdmem
    cases hd with
    | particle j => intro d hget; exact hbase d hget
    | rigid_body j =>
        intro d hget
        rw [show (set_r w i f).rigid_bodies = modify_slot f w.rigid_bodies i from rfl,
          get_modify_slot] at hget
        by_cases hj : j = i
        · rw [if_pos hj] at hget
          cases hold : get_slot w.rigid_bodies j with
          | none => rw [hold] at hget; cases hget
          | some e =>
              rw [hold] at hget
              obtain rfl := Option.some.inj hget
              rw [hf_awake e]
              exact hbase e hold
        · rw [if_neg hj] at hget
          exact hbase d hget

theorem apply_phase_preserves_phase_ok (fp : ℕ → P_state → P_state)
    (fr : ℕ → R_state → R_state)
    (hp : ∀ i d, (fp i d).awake = d.awake)
    (hr : ∀ i d, (fr i d).awake = d.awake)
    (active : List (List Dyn)) (w : World_state) (hQ : Phase_ok active w) :
    Phase_ok active (apply_phase fp fr w active) := by
  refine foldl_preserves_mem (Phase_ok active) _ active ?_ w hQ
  intro v g hg hv
  refine foldl_preserves_mem (Phase_ok active) _ g ?_ v hv
  intro u hd hdmem hu
  cases hd with
  | particle i =>
      exact set_p_preserves_phase_ok active u i (fp i) (hp i) ⟨g, hg, hdmem⟩ hu
  | rigid_body i =>
      exact set_r_preserves_phase_ok active u i (fr i) (hr i) ⟨g, hg, hdmem⟩ hu

theorem substep_preserves_phase_ok (sqrtQ : ℚ → ℚ) (gravity : Vec3)
    (delta_time inverse_delta_time damping smoothing : ℚ)
    (c : Substep_corrections) (active : List (List Dyn)) (w : World_state)
    (hQ : Phase_ok active w) :
    Phase_ok active
      (substep sqrtQ gravity delta_time inverse_delta_time damping smoothing
        c active w) := by
  simp only [substep]
  refine apply_phase_preserves_phase_ok _ _ ?_ ?_ active _
    (apply_phase_preserves_phase_ok _ _ ?_ ?_ active _
      (apply_phase_preserves_phase_ok _ _ ?_ ?_ active _
        (apply_phase_preserves_phase_ok _ _ ?_ ?_ active w hQ)))
  all_goals intro i d
  all_goals rfl

theorem simulate_preserves_inv (sqrtQ : ℚ → ℚ) (gravity : Vec3)
    (delta_time : ℚ) (corrections : List Substep_corrections)
    (damping smoothing : ℚ) (groups : List (List Dyn)) (w : World_state)
    (hdisj : groups_disjoint groups) (hinv : Sleep_inv w) :
    Sleep_inv
      (simulate sqrtQ gravity delta_time corrections damping smoothing groups
        w) := by
  obtain ⟨hinv1, hactive⟩ := update_all_groups_spec groups w hdisj hinv
  have hQ : Phase_ok (update_all_groups w groups).2
      (update_all_groups w groups).1 := ⟨hinv1, hactive⟩
  have hfold := foldl_preserves (Phase_ok (update_all_groups w groups).2)
    (fun v c =>
      substep sqrtQ gravity (delta_time / corrections.length)
        (1 / (delta_time / corrections.length)) damping smoothing c
        (update_all_groups w groups).2 v)
    (fun v c hv =>
      substep_preserves_phase_ok sqrtQ gravity _ _ damping smoothing c _ v hv)
    corrections (update_all_groups w groups).1 hQ
  exact hfold.1

theorem create_particle_preserves_inv (w : World_state) (i : ℕ)
    (position velocity : Vec3) (hinv : Sleep_inv w) :
    Sleep_inv (create_particle w i position velocity) := by
  obtain ⟨hp, hr⟩ := hinv
  refine ⟨?_, hr⟩
  intro j p hget hawake
  rw [show (create_particle w i position velocity).particles =
    write_slot _ w.particles i from rfl, get_write_slot] at hget
  by_cases hc : j = i ∧ i < w.particles.length
  · rw [if_pos hc] at hget
    obtain rfl := Option.some.inj hget
    simp at hawake
  · rw [if_neg hc] at hget
    exact hp j p hget hawake

theorem create_rigid_body_preserves_inv (w : World_state) (i : ℕ)
    (position velocity : Vec3) (orientation : Quat) (angular_velocity : Vec3)
    (hinv : Sleep_inv w) :
    Sleep_inv (create_rigid_body w i position velocity orientation
      angular_velocity) := by
  obtain ⟨hp, hr⟩ := hinv
  refine ⟨hp, ?_⟩
  intro j r hget hawake
  rw [show (create_rigid_body w i position velocity orientation
      angular_velocity).rigid_bodies =
    write_slot _ w.rigid_bodies i from rfl, get_write_slot] at hget
  by_cases hc : j = i ∧ i < w.rigid_bodies.length
  · rw [if_pos hc] at hget
    obtain rfl := Option.some.inj hget
    simp at hawake
  · rw [if_neg hc] at hget
    exact hr j r hget hawake

theorem destroy_particle_preserves_inv (w : World_state) (i : ℕ)
    (hinv : Sleep_inv w) : Sleep_inv (destroy_particle w i) := by
  obtain ⟨hp, hr⟩ := hinv
  refine ⟨?_, hr⟩
  intro j p hget hawake
  rw [show (destroy_particle w i).particles = write_slot none w.particles i
    from rfl, get_write_slot] at hget
  by_cases hc : j = i ∧ i < w.particles.length
  · rw [if_pos hc] at hget
    cases hget
  · rw [if_neg hc] at hget
    exact hp j p hget hawake

theorem destroy_rigid_body_preserves_inv (w : World_state) (i : ℕ)
    (hinv : Sleep_inv w) : Sleep_inv (destroy_rigid_body w i) := by
  obtain ⟨hp, hr⟩ := hinv
  refine ⟨hp, ?_⟩
  intro j r hget hawake
  rw [show (destroy_rigid_body w i).rigid_bodies =
    write_slot none w.rigid_bodies i from rfl, get_write_slot] at hget
  by_cases hc : j = i ∧ i < w.rigid_bodies.length
  · rw [if_pos hc] at hget
    cases hget
  · rw [if_neg hc] at hget
    exact hr j r hget hawake

/-- C4: in every world state reachable by any sequence of create, destroy
and simulate calls, every particle and rigid body whose awake flag is
false has exactly zero velocity, and every such rigid body also has zero
angular velocity; and a sleep transition (the sleep fold of the awake
state update) leaves every member of its group asleep with zero
velocities. -/
theorem c4_asleep_implies_zero_velocity (w : World_state) (hw : Reachable w) :
    Sleep_inv w ∧
      ∀ g : List Dyn, ∀ hd ∈ g, asleep_zero (g.foldl sleep_member w) hd := by
  have hinv : Sleep_inv w := by
    induction hw with
    | init np nr =>
        constructor
        · intro i p hget
          rw [show (World_state.init np nr).particles =
            List.replicate np none from rfl, get_slot_replicate_none] at hget
          cases hget
        · intro i r hget
          rw [show (World_state.init np nr).rigid_bodies =
            List.replicate nr none from rfl, get_slot_replicate_none] at hget
          cases hget
    | create_particle h i position velocity ih =>
        exact create_particle_preserves_inv _ i position velocity ih
    | create_rigid_body h i position velocity orientation angular_velocity ih =>
        exact create_rigid_body_preserves_inv _ i position velocity orientation
          angular_velocity ih
    | destroy_particle h i ih => exact destroy_particle_preserves_inv _ i ih
    | destroy_rigid_body h i ih => exact destroy_rigid_body_preserves_inv _ i ih
    | simulate h sqrtQ gravity delta_time corrections damping smoothing groups hg ih =>
        exact simulate_preserves_inv sqrtQ gravity delta_time corrections
          damping smoothing groups _ hg ih
  exact ⟨hinv, fun g => sleep_fold_asleep_zero g w hinv⟩

/-- Witness for C4 at a concrete reachable world: one freshly created
particle. -/
theorem c4_asleep_implies_zero_velocity_witness :
    Sleep_inv (create_particle (World_state.init 1 0) 0 Vec3.zero Vec3.zero) ∧
      ∀ g : List Dyn, ∀ hd ∈ g,
        asleep_zero (g.foldl sleep_member
          (create_particle (World_state.init 1 0) 0 Vec3.zero Vec3.zero)) hd :=
  c4_asleep_implies_zero_velocity _
    (Reachable.create_particle (Reachable.init 1 0) 0 Vec3.zero Vec3.zero)

theorem awake_scan_step_no_awake (w : World_state) (acc : Awake_scan)
    (hd : Dyn) (h : dyn_awake w hd = false) :
    (awake_scan_step w acc hd).contains_awake = acc.contains_awake := by
  cases hd with
  | particle i =>
      simp only [dyn_awake] at h
      simp only [awake_scan_step]
      cases hget : get_slot w.particles i with
      | none => rfl
      | some d =>
          rw [hget] at h
          simp only [Option.map, Option.getD] at h
          simp [h]
  | rigid_body i =>
      simp only [dyn_awake] at h
      simp only [awake_scan_step]
      cases hget : get_slot w.rigid_bodies i with
      | none => rfl
      | some d =>
          rw [hget] at h
          simp only [Option.map, Option.getD] at h
          simp [h]

theorem scan_fold_no_awake (w : World_state) :
    ∀ (g : List Dyn) (acc : Awake_scan), (∀ hd ∈ g, dyn_awake w hd = false) →
      (g.foldl (awake_scan_step w) acc).contains_awake = acc.contains_awake := by
  intro g
  induction g with
  | nil => intro acc _; rfl
  | cons h0 g ih =>
      intro acc hall
      rw [List.foldl_cons,
        ih (awake_scan_step w acc h0) (fun hd hm => hall hd (List.mem_cons_of_mem h0 hm)),
        awake_scan_step_no_awake w acc h0 (hall h0 (List.mem_cons_self h0 g))]

theorem update_group_noop_of_all_asleep (w : World_state) (g : List Dyn)
    (h : ∀ hd ∈ g, dyn_awake w hd = false) :
    update_group_awake_states w g = (w, false) := by
  have hca : (scan_group w g).contains_awake = false :=
    scan_fold_no_awake w g ⟨false, false, true⟩ h
  simp [update_group_awake_states, hca]

theorem update_all_groups_noop_of_all_asleep :
    ∀ (groups : List (List Dyn)) (w : World_state),
      (∀ g ∈ groups, ∀ hd ∈ g, dyn_awake w hd = false) →
      update_all_groups w groups = (w, []) := by
  intro groups
  induction groups with
  | nil => intro w _; rfl
  | cons g gs ih =>
      intro w hall
      show (let r := update_group_awake_states w g
            let rest := update_all_groups r.1 gs
            (rest.1, if r.2 = true then g :: rest.2 else rest.2)) = (w, [])
      rw [update_group_noop_of_all_asleep w g (hall g (List.mem_cons_self g gs))]
      simp only []
      rw [ih w (fun g2 hg2 => hall g2 (List.mem_cons_of_mem g hg2))]
      simp

theorem foldl_substep_empty_active (sqrtQ : ℚ → ℚ) (gravity : Vec3)
    (delta_time inverse_delta_time damping smoothing : ℚ) :
    ∀ (cs : List Substep_corrections) (w : World_state),
      cs.foldl
        (fun v c =>
          substep sqrtQ gravity delta_time inverse_delta_time damping smoothing
            c [] v)
        w = w := by
  intro cs
  induction cs with
  | nil => intro w; rfl
  | cons c cs ih => intro w; exact ih w

/-- C7 (amended): a simulate call - in particular simulate(dt=0, N=1) -
leaves the world unchanged when no neighbor group contains an awake
member: every group is then skipped by the awake-state update and the
substep loop has no active groups to touch.  (Worlds with awake members
are changed in general: see the counterexample, where the pre-substep
sleep pass of a simulate(0, 1) call flips the awake flag.) -/
theorem c7_simulate_identity_without_awake_members (sqrtQ : ℚ → ℚ)
    (gravity : Vec3) (delta_time : ℚ) (corrections : List Substep_corrections)
    (damping smoothing : ℚ) (groups : List (List Dyn)) (w : World_state)
    (hall : ∀ g ∈ groups, ∀ hd ∈ g, dyn_awake w hd = false) :
    simulate sqrtQ gravity delta_time corrections damping smoothing groups w = w := by
  show (let r := update_all_groups w groups
        let h := delta_time / corrections.length
        let h_inv := 1 / h
        corrections.foldl
          (fun v c => substep sqrtQ gravity h h_inv damping smoothing c r.2 v)
          r.1) = w
  rw [update_all_groups_noop_of_all_asleep groups w hall]
  exact foldl_substep_empty_active sqrtQ gravity _ _ damping smoothing
    corrections w

/-- All-zero solver corrections (a frame in which the kernels produce no
contacts or no net impulses). -/
def c7_zero_corrections : Substep_corrections :=
  { delta_position_p := fun _ => Vec3.zero,
    delta_position_r := fun _ => Vec3.zero,
    new_orientation_r := fun _ => Quat.identity,
    delta_velocity_p := fun _ => Vec3.zero,
    delta_velocity_r := fun _ => Vec3.zero,
    delta_angular_velocity_r := fun _ => Vec3.zero }

/-- A world reached by creating one resting particle and simulating one
ordinary frame (dt = 1, one substep, damping 0.99^1 = 99/100, smoothing
1 - (1/8)^1 = 7/8, no gravity, no contacts): the particle is awake and its
waking motion has decayed to 1/1024, below the sleep epsilon of 1/256. -/
def c7_resting_world : World_state :=
  simulate (fun _ => 0) Vec3.zero 1 [c7_zero_corrections] (99 / 100) (7 / 8)
    [[Dyn.particle 0]]
    (create_particle (World_state.init 1 0) 0 Vec3.zero Vec3.zero)

/-- C7 counterexample: c7_resting_world is reachable and its particle is
awake, yet simulate(dt=0, N=1) - with the factors the source computes at
h=0, damping 0.99^0 = 1 and smoothing 1 - (1/8)^0 = 0 - returns a world
in which the particle is no longer awake: the pre-substep sleep pass put
the sleepable component to sleep, an observable state change. -/
theorem c7_simulate_zero_dt_flips_awake_flag :
    Reachable c7_resting_world ∧
      dyn_awake c7_resting_world (.particle 0) = true ∧
      dyn_awake
        (simulate (fun _ => 0) Vec3.zero 0 [c7_zero_corrections] 1 0
          [[Dyn.particle 0]] c7_resting_world)
        (.particle 0) = false := by
  refine ⟨?_, ?_, ?_⟩
  · exact Reachable.simulate
      (Reachable.create_particle (Reachable.init 1 0) 0 Vec3.zero Vec3.zero)
      (fun _ => 0) Vec3.zero 1 [c7_zero_corrections] (99 / 100) (7 / 8)
      [[Dyn.particle 0]] (by simp [groups_disjoint])
  · norm_num [c7_resting_world, simulate, update_all_groups,
      update_group_awake_states, scan_group, awake_scan_step, sleep_member,
      wake_member, set_p, set_r, modify_slot, get_slot, dyn_awake,
      create_particle, World_state.init, write_slot, substep, apply_phase,
      integrate_p, derive_p, waking_motion_epsilon, waking_motion_initializer,
      waking_motion_limit, Vec3.length2, Vec3.dot, Vec3.zero,
      c7_zero_corrections, List.foldl, List.replicate]
  · norm_num [c7_resting_world, simulate, update_all_groups,
      update_group_awake_states, scan_group, awake_scan_step, sleep_member,
      wake_member, set_p, set_r, modify_slot, get_slot, dyn_awake,
      create_particle, World_state.init, write_slot, substep, apply_phase,
      integrate_p, derive_p, waking_motion_epsilon, waking_motion_initializer,
      waking_motion_limit, Vec3.length2, Vec3.dot, Vec3.zero,
      c7_zero_corrections, List.foldl, List.replicate]

/-- Witness for the amended C7 theorem: a world holding one sleeping
particle is returned unchanged by simulate(dt=0, N=1). -/
def c7_asleep_world : World_state :=
  { particles := [some
      { previous_position := Vec3.zero
        position := Vec3.zero
        velocity := Vec3.zero
        waking_motion := 0
        awake := false }],
    rigid_bodies := [] }

theorem c7_simulate_identity_witness :
    (∀ g ∈ [[Dyn.particle 0]], ∀ hd ∈ g, dyn_awake c7_asleep_world hd = false) ∧
      simulate (fun _ => 0) Vec3.zero 0 [c7_zero_corrections] 1 0
        [[Dyn.particle 0]] c7_asleep_world = c7_asleep_world :=
  ⟨by decide,
    c7_simulate_identity_without_awake_members (fun _ => 0) Vec3.zero 0
      [c7_zero_corrections] 1 0 [[Dyn.particle 0]] c7_asleep_world (by decide)⟩

end Marlon
